import Mathlib

/-!
# Verification of the `number_to_text` converter

A shallow embedding of `src/number_to_text.py` together with its constant
tables (`src/data/constants.py`, `src/data/error_messages.py`).

Python strings are modelled as `List Char` for digit manipulation and as
`String` for produced text.  Python exceptions are modelled by the
`Except PyError` monad: `ValueError` (raised by validation and by `int()`),
`KeyError` (dict lookup miss) and `IndexError` (list subscript out of range).
Dictionaries with `int` keys (`SINGLES`, `UNIQUES`, `DOUBLES`, `LARGE`) are
modelled as `Nat → Option String`; a `none` result at a use site that Python
does not guard corresponds to a raised `KeyError`.

The embedding only covers `int` and `str` inputs (the `float` branch of
`validate_number` rejects every float unconditionally and no claim is about
floats); digit characters are the ASCII digits, matching the inputs the
claims quantify over.
-/

set_option maxRecDepth 8000

/-- Python exceptions that the program can raise. -/
inductive PyError where
  | valueError (msg : String)
  | keyError
  | indexError
deriving DecidableEq, Repr

/-- Decidable equality of `Except` results, so that concrete runs of the
converter can be checked by `decide`. -/
instance {ε α : Type} [DecidableEq ε] [DecidableEq α] : DecidableEq (Except ε α)
  | .ok a, .ok b =>
    if h : a = b then .isTrue (by rw [h])
    else .isFalse (fun hh => h (Except.ok.inj hh))
  | .ok _, .error _ => .isFalse (fun hh => Except.noConfusion hh)
  | .error _, .ok _ => .isFalse (fun hh => Except.noConfusion hh)
  | .error a, .error b =>
    if h : a = b then .isTrue (by rw [h])
    else .isFalse (fun hh => h (Except.error.inj hh))

/-- The input of `NumberToText`: a Python `int` or a Python `str`
(the `str` is modelled by its character list). -/
inductive PyInput where
  | int (n : Int)
  | str (s : List Char)
deriving DecidableEq, Repr

/-- Characters stripped by Python's argumentless `str.strip()`
(space, tab, newline, carriage return, vertical tab, form feed),
identified by their code points. -/
def isPySpace (c : Char) : Bool :=
  c.toNat == 32 || c.toNat == 9 || c.toNat == 10 || c.toNat == 13 ||
    c.toNat == 11 || c.toNat == 12

/-- ASCII digit test (the `str.isdigit` character class restricted to ASCII,
code points 48–57). -/
def isDigitChar (c : Char) : Bool :=
  48 ≤ c.toNat && c.toNat ≤ 57

/-- Numeric value of a digit character. -/
def charVal (c : Char) : Nat :=
  c.toNat - 48

/-- Decimal digit character of a value `0..9` (used by `str(int)`). -/
def digitChar : Nat → Char
  | 0 => '0' | 1 => '1' | 2 => '2' | 3 => '3' | 4 => '4'
  | 5 => '5' | 6 => '6' | 7 => '7' | 8 => '8' | _ => '9'

/-- `s.lstrip()` restricted to whitespace: drop leading whitespace. -/
def pyStripL (s : List Char) : List Char :=
  s.dropWhile isPySpace

/-- `s.strip()`: drop leading and trailing whitespace. -/
def pyStrip (s : List Char) : List Char :=
  ((s.dropWhile isPySpace).reverse.dropWhile isPySpace).reverse

/-- `s.strip(" ")`: drop leading and trailing space characters only. -/
def pyStripSpaces (s : List Char) : List Char :=
  ((s.dropWhile (· == ' ')).reverse.dropWhile (· == ' ')).reverse

/-- `s.lstrip("-")`: drop every leading minus sign. -/
def lstripMinus (s : List Char) : List Char :=
  s.dropWhile (· == '-')

/-- `s.lstrip("0")`: drop every leading zero character. -/
def lstripZeros (s : List Char) : List Char :=
  s.dropWhile (· == '0')

/-- Python `str.isdigit` (ASCII): nonempty and all digits. -/
def isdigit (s : List Char) : Bool :=
  !s.isEmpty && s.all isDigitChar

/-- Helper of `digitsVal`: Horner accumulation of decimal digits. -/
def digitsValAux (a : Nat) : List Char → Nat
  | [] => a
  | c :: rest => digitsValAux (10 * a + charVal c) rest

/-- Numeric value of a digit string (the value `int()` computes on it). -/
def digitsVal (s : List Char) : Nat :=
  digitsValAux 0 s

/-- Python `int(str)`: after stripping whitespace, an optional single sign
followed by a nonempty run of digits; anything else raises `ValueError`.
Returned as `Option`; the caller raises. -/
def pyInt (s : List Char) : Option Int :=
  match pyStripL s with
  | [] => none
  | c :: rest =>
    if c == '-' then
      if isdigit rest then some (-(digitsVal rest : Int)) else none
    else if c == '+' then
      if isdigit rest then some ((digitsVal rest : Int)) else none
    else if isdigit (c :: rest) then some ((digitsVal (c :: rest) : Int)) else none

/-- Helper of `natDigits` (fuel-based so that it is structural). -/
def natDigitsAux : Nat → Nat → List Char
  | 0, _ => []
  | fuel + 1, n => if n < 10 then [digitChar n] else natDigitsAux fuel (n / 10) ++ [digitChar (n % 10)]

/-- Decimal digit string of a natural number, `str(n)` for `n ≥ 0`. -/
def natDigits (n : Nat) : List Char :=
  natDigitsAux (n + 1) n

/-- Python `str(n)` for an integer. -/
def intToString (n : Int) : List Char :=
  if n < 0 then '-' :: natDigits n.natAbs else natDigits n.toNat

/-! ## Constant tables (`src/data/constants.py`, `src/data/error_messages.py`) -/

def MINUS : String := "minus"

def HUNDRED : String := "hundred"

def MAX_SUPPORTED_NUMBER : Int := 999999999999999999999999999

def MAX_SUPPORTED_NUMBER_LENGTH : Nat := 27

/-- `dc.ZERO[0]`. -/
def ZERO_WORD : String := "zero"

/-- The `SINGLES` dict (keys 0–9). -/
def SINGLES (k : Nat) : Option String :=
  if k = 0 then some ""
  else if k = 1 then some "one"
  else if k = 2 then some "two"
  else if k = 3 then some "three"
  else if k = 4 then some "four"
  else if k = 5 then some "five"
  else if k = 6 then some "six"
  else if k = 7 then some "seven"
  else if k = 8 then some "eight"
  else if k = 9 then some "nine"
  else none

/-- `dc.SINGLES.values()`. -/
def SINGLES_values : List String :=
  ["", "one", "two", "three", "four", "five", "six", "seven", "eight", "nine"]

/-- The `UNIQUES` dict (keys 11–19). -/
def UNIQUES (k : Nat) : Option String :=
  if k = 11 then some "eleven"
  else if k = 12 then some "twelve"
  else if k = 13 then some "thirteen"
  else if k = 14 then some "fourteen"
  else if k = 15 then some "fifteen"
  else if k = 16 then some "sixteen"
  else if k = 17 then some "seventeen"
  else if k = 18 then some "eighteen"
  else if k = 19 then some "nineteen"
  else none

/-- `dc.UNIQUES.values()`. -/
def UNIQUES_values : List String :=
  ["eleven", "twelve", "thirteen", "fourteen", "fifteen", "sixteen", "seventeen",
   "eighteen", "nineteen"]

/-- The `DOUBLES` dict (keys 10,20,…,90). -/
def DOUBLES (k : Nat) : Option String :=
  if k = 10 then some "ten"
  else if k = 20 then some "twenty"
  else if k = 30 then some "thirty"
  else if k = 40 then some "forty"
  else if k = 50 then some "fifty"
  else if k = 60 then some "sixty"
  else if k = 70 then some "seventy"
  else if k = 80 then some "eighty"
  else if k = 90 then some "ninety"
  else none

/-- The `LARGE` dict (keys 2–9); each word carries its leading space as in the
source. -/
def LARGE (grade : Nat) : Option String :=
  if grade = 2 then some " thousand"
  else if grade = 3 then some " million"
  else if grade = 4 then some " billion"
  else if grade = 5 then some " trillion"
  else if grade = 6 then some " quadrillion"
  else if grade = 7 then some " quintillion"
  else if grade = 8 then some " sextillion"
  else if grade = 9 then some " septillion"
  else none

/-- `dc.LARGE.values()`. -/
def LARGE_values : List String :=
  [" thousand", " million", " billion", " trillion", " quadrillion",
   " quintillion", " sextillion", " septillion"]

def FLOATING_POINT_ERROR_MESSAGE : String :=
  "Floating point numbers are not supported"

def NUMBER_IS_NOT_DIGITS_ONLY : String :=
  "is not a valid number. It should contain digits only."

def NUMBER_TOO_LARGE : String :=
  "Number is too large. The maximum number length is 27 digits"

/-- The single-quote character (code point 39). -/
def quoteChar : Char := Char.ofNat 39

/-- The message of the not-digits `ValueError`: the f-string
`f"'{number}' {err.NUMBER_IS_NOT_DIGITS_ONLY}"`. -/
def notDigitsMsg (s : List Char) : String :=
  String.mk (quoteChar :: s ++ quoteChar :: ' ' :: NUMBER_IS_NOT_DIGITS_ONLY.data)

/-! ## `NumberToText.validate_number` -/

/-- `NumberToText.validate_number`.  The `float` branch is omitted because the
embedded input type has only `int` and `str` inhabitants.  On success Python
returns `str(number).strip()`. -/
def validate_number (number : PyInput) : Except PyError (List Char) :=
  match number with
  | .str s =>
    if !(isdigit (lstripMinus (pyStrip s))) then
      .error (.valueError (notDigitsMsg s))
    else if s.length > MAX_SUPPORTED_NUMBER_LENGTH then
      .error (.valueError NUMBER_TOO_LARGE)
    else
      .ok (pyStrip s)
  | .int n =>
    if n > MAX_SUPPORTED_NUMBER then
      .error (.valueError NUMBER_TOO_LARGE)
    else
      .ok (intToString n)

/-! ## `NumberToText._format_number_string` -/

/-- Helper of `format_number_string`.  The source iterates
`digit = 1, …, len(number_string)` picking `number_string[len - digit]`, i.e.
it walks the reversed string; it prefixes a space to every character whose
1-based position from the right is divisible by 3, then reverses the
collected pieces and joins them.  Joining the reversed pieces is the reverse
of emitting, for the reversed string, each character followed by a space
whenever its position is divisible by 3 — which is what this helper does
(`i` counts the characters already emitted). -/
def fmtRevAux (i : Nat) : List Char → List Char
  | [] => []
  | c :: rest =>
    if (i + 1) % 3 == 0 then c :: ' ' :: fmtRevAux (i + 1) rest
    else c :: fmtRevAux (i + 1) rest

/-- `NumberToText._format_number_string`: insert a space before every third
digit counted from the right (the result may begin with one space, which the
caller strips). -/
def format_number_string (number_string : List Char) : List Char :=
  (fmtRevAux 0 number_string.reverse).reverse

/-! ## Splitting (`str.split(" ")` and `str.split()`) -/

/-- Python `s.split(" ")`: split at every single space, keeping empties. -/
def pySplitChar (sep : Char) : List Char → List (List Char)
  | [] => [[]]
  | c :: rest =>
    if c == sep then [] :: pySplitChar sep rest
    else
      match pySplitChar sep rest with
      | [] => [[c]]
      | g :: gs => (c :: g) :: gs

/-- Helper of `pySplitWs`; `acc` is the current token, reversed. -/
def pySplitWsAux (acc : List Char) : List Char → List (List Char)
  | [] => if acc.isEmpty then [] else [acc.reverse]
  | c :: rest =>
    if isPySpace c then
      if acc.isEmpty then pySplitWsAux [] rest
      else acc.reverse :: pySplitWsAux [] rest
    else pySplitWsAux (c :: acc) rest

/-- Python `s.split()`: split on whitespace runs, dropping empty tokens. -/
def pySplitWs (s : List Char) : List (List Char) :=
  pySplitWsAux [] s

/-! ## Generic string helpers -/

/-- `p` is a prefix of `t` (Boolean). -/
def listPrefixOf : List Char → List Char → Bool
  | [], _ => true
  | _ :: _, [] => false
  | a :: as, b :: bs => a == b && listPrefixOf as bs

/-- Python `s.endswith(pat)`. -/
def pyEndsWith (s pat : String) : Bool :=
  listPrefixOf pat.data.reverse s.data.reverse

/-- Python `sep.join(xs)`. -/
def pyJoin (sep : String) : List String → String
  | [] => ""
  | [x] => x
  | x :: xs => x ++ sep ++ pyJoin sep xs

/-! ## Group translation (`_all_digits_are_zeros`, `_add_singles`,
`_add_decimals`, `_add_hundreds`, `_format_digits`,
`_create_text_from_number`) -/

/-- `NumberToText._all_digits_are_zeros`: length is exactly 3 and every digit
is zero (`int(digit) == 0`; the argument is always a digit string). -/
def all_digits_are_zeros (three_digit_string : List Char) : Bool :=
  three_digit_string.length == 3 && three_digit_string.all (fun c => charVal c == 0)

/-- `NumberToText._add_singles`: `SINGLES[int(numbers[-1])]`; raises
`IndexError` on an empty string and `KeyError` on a missing key. -/
def add_singles (numbers : List Char) : Except PyError String :=
  match numbers.getLast? with
  | none => .error .indexError
  | some c =>
    match SINGLES (charVal c) with
    | none => .error .keyError
    | some w => .ok w

/-- `numbers[-2:]` : the last (at most) two characters. -/
def takeRight2 (numbers : List Char) : List Char :=
  numbers.drop (numbers.length - 2)

/-- `numbers[-2]` if it exists. -/
def getSecondLast (numbers : List Char) : Option Char :=
  if numbers.length < 2 then none else numbers.get? (numbers.length - 2)

/-- `NumberToText._add_decimals`.  The source is a `try`/`except` ladder whose
`finally` block contains `return " ".join(result)`, which swallows any
exception still propagating, so the function is total: it returns whatever
has been appended to `result` so far.
  * `UNIQUES[int(numbers[-2:])]` if that key exists (teens);
  * else `DOUBLES[int(numbers[-2:])]` (exact tens);
  * else `DOUBLES[int(numbers[-2] + "0")]` followed by `_add_singles`
    (`numbers[-2]` raising `IndexError`, the `DOUBLES` lookup raising
    `KeyError`, or `_add_singles` raising are all caught by
    `except Exception`, which falls back to `_add_singles` alone; a failure
    of that fallback is swallowed by the `finally` return). -/
def add_decimals (numbers : List Char) : String :=
  match UNIQUES (digitsVal (takeRight2 numbers)) with
  | some w => w
  | none =>
    match DOUBLES (digitsVal (takeRight2 numbers)) with
    | some w => w
    | none =>
      match getSecondLast numbers with
      | none =>
        match add_singles numbers with
        | .ok w => w
        | .error _ => ""
      | some t =>
        match DOUBLES (charVal t * 10) with
        | none =>
          match add_singles numbers with
          | .ok w => w
          | .error _ => ""
        | some w =>
          match add_singles numbers with
          | .ok s => w ++ " " ++ s
          | .error _ => w

/-- The `result` list built by `NumberToText._add_hundreds` (lines 273–282):
after stripping leading zeros the remaining length selects the branch.
`numbers[-3]` on the length-3 remainder is its first character; a raised
exception is an `error`. -/
def add_hundreds_result (ns : List Char) : Except PyError (List String) :=
  if ns.length = 3 then
    match ns.head? with
    | none => .error .indexError
    | some c =>
      match SINGLES (charVal c) with
      | none => .error .keyError
      | some w => .ok [w ++ " " ++ HUNDRED, add_decimals ns]
  else if ns.length = 2 then
    .ok [add_decimals ns]
  else if ns.length = 1 then
    match add_singles ns with
    | .error e => .error e
    | .ok w => .ok [w]
  else
    .ok []

/-- `NumberToText._add_hundreds`: build `result` from the zero-stripped
digits, then `result[0]` (an `IndexError` when the list is empty, i.e. a
short all-zero group), possibly append `" and"` after a bare "hundred" with
a nonempty remainder, and `" ".join`. -/
def add_hundreds (numbers : List Char) : Except PyError String :=
  match add_hundreds_result (lstripZeros numbers) with
  | .error e => .error e
  | .ok result =>
    match result with
    | [] => .error .indexError
    | r0 :: rest =>
      let r0 :=
        if pyEndsWith r0 "hundred" && decide (1 < (r0 :: rest).length) &&
            (rest.headD "") != "" then
          r0 ++ " and"
        else r0
      .ok (pyJoin " " (r0 :: rest))

/-- `NumberToText._format_digits`: empty phrase for an all-zero 3-digit group,
else the `_add_hundreds` phrase (the `" ".join` of a singleton list is the
element itself). -/
def format_digits (numbers : List Char) : Except PyError String :=
  if all_digits_are_zeros numbers then .ok ""
  else add_hundreds numbers

/-- `NumberToText._create_text_from_number` with its `_cached_values`
memoisation dict, modelled as an association list. -/
def create_text_from_number : List (List Char) → List (List Char × String) →
    Except PyError (List String)
  | [], _ => .ok []
  | g :: gs, cache =>
    match cache.lookup g with
    | some w => do
      let rest ← create_text_from_number gs cache
      .ok (w :: rest)
    | none => do
      let w ← format_digits g
      let rest ← create_text_from_number gs ((g, w) :: cache)
      .ok (w :: rest)

/-! ## `NumberToText._final_format` -/

/-- Line 134–138 of the source: the suffix expression
`dc.LARGE[grade] if not plural or grade == 2 else dc.LARGE[grade] + "s"`. -/
def suffix_to_add (lw : String) (plural : Bool) (grade : Nat) : String :=
  if !plural || grade == 2 then lw else lw ++ "s"

/-- `x.removesuffix(" ")`: remove one trailing space if present. -/
def removeOneTrailingSpace (s : String) : String :=
  if s.data.getLast? == some ' ' then String.mk s.data.dropLast else s

/-- `result.replace(", and", " and")`: left-to-right, non-overlapping. -/
def replaceCommaAnd : List Char → List Char
  | ',' :: ' ' :: 'a' :: 'n' :: 'd' :: rest => ' ' :: 'a' :: 'n' :: 'd' :: replaceCommaAnd rest
  | c :: rest => c :: replaceCommaAnd rest
  | [] => []

/-- The suffix-attaching loop of `_final_format` (lines 120–143).  Python
walks `index = 0, …, len(words) - 1` with `grade = len(words) - index`, so at
each recursion step the grade is the length of the remaining word list.
`digit_groups_list[index]` is subscripted at every iteration (for `plural`),
so a too-short group list raises `IndexError`; `dc.LARGE[grade]` is
subscripted inside the condition whenever `grade > 1`, before the all-zeros
test, so a grade above 9 raises `KeyError`.  `additions` is the set of
suffixes already attached. -/
def suffix_pass : List String → List (List Char) → List String →
    Except PyError (List String)
  | [], _, _ => .ok []
  | _ :: _, [], _ => .error .indexError
  | w :: ws, g :: gs, additions =>
    let grade := ws.length + 1
    let plural : Bool := decide (1 < digitsVal g)
    if grade ≤ 1 then do
      let rest ← suffix_pass ws gs additions
      .ok (w :: rest)
    else
      match LARGE grade with
      | none => .error .keyError
      | some lw =>
        if additions.contains (lw ++ "s") || additions.contains lw then do
          let rest ← suffix_pass ws gs additions
          .ok (w :: rest)
        else if all_digits_are_zeros g then do
          let rest ← suffix_pass ws gs additions
          .ok (w :: rest)
        else
          let suffix := suffix_to_add lw plural grade
          let w' := String.mk (pyStripSpaces w.data) ++ suffix
          do
            let rest ← suffix_pass ws gs (suffix :: additions)
            .ok (w' :: rest)

/-- The variant of the suffix loop with the "suffix already used" guard
removed (the membership test on `additions` deleted from the condition; the
`LARGE[grade]` subscript then only happens when the suffix is actually
attached, i.e. after the all-zeros test). -/
def suffix_pass_noguard : List String → List (List Char) → Except PyError (List String)
  | [], _ => .ok []
  | _ :: _, [] => .error .indexError
  | w :: ws, g :: gs =>
    let grade := ws.length + 1
    let plural : Bool := decide (1 < digitsVal g)
    if grade ≤ 1 then do
      let rest ← suffix_pass_noguard ws gs
      .ok (w :: rest)
    else if all_digits_are_zeros g then do
      let rest ← suffix_pass_noguard ws gs
      .ok (w :: rest)
    else
      match LARGE grade with
      | none => .error .keyError
      | some lw =>
        let suffix := suffix_to_add lw plural grade
        let w' := String.mk (pyStripSpaces w.data) ++ suffix
        do
          let rest ← suffix_pass_noguard ws gs
          .ok (w' :: rest)

/-- The joining phase of `_final_format` (lines 145–174), shared by the
guarded and unguarded variants.  `ws` is the word list after the suffix
loop.  The comprehension prefixes `"and "` to any bare single/teen word when
the list has more than one entry and its (mutated) first entry is nonempty,
then drops empty strings; two or more survivors are joined with `", "`
(each stripped of one trailing space), a single survivor is stripped of
whitespace; finally `", and"` collapses to `" and"` and a negative number is
prefixed with `"minus, "`. -/
def final_join (ws : List String) (neg : Bool) : String :=
  let head0 := ws.headD ""
  let temp :=
    (ws.map (fun w =>
      if (SINGLES_values.contains w || UNIQUES_values.contains w) && w != ""
          && decide (1 < ws.length) && head0 != "" then
        "and " ++ w
      else w)).filter (fun s => s != "")
  let result :=
    if 2 ≤ temp.length then pyJoin ", " (temp.map removeOneTrailingSpace)
    else String.mk (pyStrip (pyJoin " " temp).data)
  let result := String.mk (replaceCommaAnd result.data)
  if neg then MINUS ++ ", " ++ result else result

/-- `NumberToText._final_format`. -/
def final_format (words_as_numbers_list : List String)
    (digit_groups_list : List (List Char)) (neg : Bool) : Except PyError String := do
  let ws ← suffix_pass words_as_numbers_list digit_groups_list []
  .ok (final_join ws neg)

/-- `_final_format` with the "suffix already used" guard removed. -/
def final_format_noguard (words_as_numbers_list : List String)
    (digit_groups_list : List (List Char)) (neg : Bool) : Except PyError String := do
  let ws ← suffix_pass_noguard words_as_numbers_list digit_groups_list
  .ok (final_join ws neg)

/-! ## `NumberToText._read_number` and the public conversion -/

/-- `NumberToText._read_number` applied to the validated value `v`.
`int(v)` raising is a `ValueError`; a zero value short-circuits to
`dc.ZERO[0]`; otherwise the sign is recorded, the digits are grouped
(`_format_number_string(...).strip(" ")`, with `"-"` prepended for a
negative number), the groups are translated with a fresh cache, and
`_final_format` is applied to the word list (from
`numerical_split_value.lstrip("-")` split at every space) and the digit
group list (from the same string split on whitespace). -/
def read_number (v : List Char) : Except PyError String :=
  match pyInt v with
  | none => .error (.valueError ("invalid literal for int() with base 10: " ++ String.mk v))
  | some val =>
    if val = 0 then .ok ZERO_WORD
    else
      let neg : Bool := decide (val < 0)
      let splitv := pyStripSpaces (format_number_string (lstripMinus v))
      let nsv := if neg then '-' :: splitv else splitv
      do
        let words ← create_text_from_number (pySplitChar ' ' (lstripMinus nsv)) []
        final_format words (pySplitWs (lstripMinus nsv)) neg

/-- `read_number` with the unguarded `_final_format`. -/
def read_number_noguard (v : List Char) : Except PyError String :=
  match pyInt v with
  | none => .error (.valueError ("invalid literal for int() with base 10: " ++ String.mk v))
  | some val =>
    if val = 0 then .ok ZERO_WORD
    else
      let neg : Bool := decide (val < 0)
      let splitv := pyStripSpaces (format_number_string (lstripMinus v))
      let nsv := if neg then '-' :: splitv else splitv
      do
        let words ← create_text_from_number (pySplitChar ' ' (lstripMinus nsv)) []
        final_format_noguard words (pySplitWs (lstripMinus nsv)) neg

/-- The public conversion `str(NumberToText(number))`: validate, then read. -/
def convertNumber (number : PyInput) : Except PyError String := do
  let v ← validate_number number
  read_number v

/-- The public conversion with the "suffix already used" guard removed. -/
def convertNumber_noguard (number : PyInput) : Except PyError String := do
  let v ← validate_number number
  read_number_noguard v

/-! ## Specification-side helpers (not from the source) -/

/-- Helper of `chunksRight3` (fuel-based). -/
def chunksRight3Aux : Nat → List Char → List (List Char)
  | _, [] => []
  | 0, d => [d]
  | fuel + 1, d =>
    if d.length ≤ 3 then [d]
    else chunksRight3Aux fuel (d.take (d.length - 3)) ++ [d.drop (d.length - 3)]

/-- The groups of three digits counted from the right (specification-side
characterisation of what `_format_number_string` followed by splitting on
spaces produces). -/
def chunksRight3 (d : List Char) : List (List Char) :=
  chunksRight3Aux d.length d

/-- A digit string whose leftmost group is a *short* (length 1 or 2) all-zero
group; on such strings `_add_hundreds` raises `IndexError`. -/
def shortZeroLead (d : List Char) : Bool :=
  d.length % 3 != 0 && (d.take (d.length % 3)).all (· == '0')

/-- The text of the maximum supported number, as asserted by the repository's
own test suite. -/
def maxText : String :=
  "nine hundred and ninety nine septillions, nine hundred and ninety nine sextillions, nine hundred and ninety nine quintillions, nine hundred and ninety nine quadrillions, nine hundred and ninety nine trillions, nine hundred and ninety nine billions, nine hundred and ninety nine millions, nine hundred and ninety nine thousand, nine hundred and ninety nine"

/-- Substring helper: `p` occurs somewhere inside `t`. -/
def substrAt (p : List Char) : List Char → Bool
  | [] => listPrefixOf p []
  | c :: rest => listPrefixOf p (c :: rest) || substrAt p rest

/-- `pat in s` for strings. -/
def containsSub (s pat : String) : Bool :=
  substrAt pat.data s.data

/-- Helper of `intercalateSp`: prepends a space before each further group. -/
def intercalateSpAux : List (List Char) → List Char
  | [] => []
  | g :: gs => ' ' :: (g ++ intercalateSpAux gs)

/-- The groups joined with single spaces (specification-side description of
the grouped digit string). -/
def intercalateSp : List (List Char) → List Char
  | [] => []
  | g :: gs => g ++ intercalateSpAux gs

/-- The phrase `_format_digits` computes on a group, as a total function
(defaulting to "" on the error cases, which the success lemmas rule out). -/
def groupPhrase (g : List Char) : String :=
  match format_digits g with
  | .ok w => w
  | .error _ => ""

/-! # Theorems about the claims -/

/-- **C8.**  The "and" insertion and comma-joining rules reproduce the spec's
worked examples exactly: `convert(101)`, `convert(1001)`, `convert(1000001)`
and `convert(9876543210)` give the asserted strings. -/
theorem c8_grammar_worked_examples :
    convertNumber (.int 101) = .ok "one hundred and one" ∧
    convertNumber (.int 1001) = .ok "one thousand and one" ∧
    convertNumber (.int 1000001) = .ok "one million and one" ∧
    convertNumber (.int 9876543210) =
      .ok "nine billions, eight hundred and seventy six millions, five hundred and forty three thousand, two hundred and ten" :=
  ⟨rfl, rfl, rfl, rfl⟩

/-- **C9 (counterexample).**  The claim asserts that converting the maximum
value yields nine groups joined with *all nine* magnitude words; but the
program has exactly eight magnitude words (`LARGE`, grades 2–9) and exactly
eight of them occur in the output, so no nine distinct magnitude words can
occur in it. -/
theorem c9_counterexample :
    convertNumber (.int MAX_SUPPORTED_NUMBER) = .ok maxText ∧
    LARGE_values.length = 8 ∧
    (LARGE_values.filter (fun w => containsSub maxText w)).length = 8 ∧
    ¬ ∃ ws : List String, ws.length = 9 ∧ ws.Nodup ∧
      ∀ w ∈ ws, w ∈ LARGE_values ∧ containsSub maxText w = true := by
  refine ⟨rfl, rfl, by decide, ?_⟩
  rintro ⟨ws, hlen, hnd, hmem⟩
  have hsub : ws ⊆ LARGE_values := fun w hw => (hmem w hw).1
  have : ws.length ≤ LARGE_values.length := by
    have h1 : ws.toFinset.card = ws.length := List.toFinset_card_of_nodup hnd
    have h2 : ws.toFinset ⊆ LARGE_values.toFinset := by
      intro w hw
      rw [List.mem_toFinset] at hw ⊢
      exact hsub hw
    have h3 := Finset.card_le_card h2
    have h4 : LARGE_values.toFinset.card ≤ LARGE_values.length :=
      List.toFinset_card_le LARGE_values
    omega
  rw [hlen] at this
  norm_num [LARGE_values] at this

/-- **C9 (amended).**  Converting the maximum value succeeds and yields nine
groups of "nine hundred and ninety nine" joined with all *eight* magnitude
words in descending order (grades 9 down to 2, pluralized except for
thousand); converting one more fails with the too-large error, whose message
states the maximum supported digit length of 27. -/
theorem c9_max_boundary :
    convertNumber (.int MAX_SUPPORTED_NUMBER) = .ok maxText ∧
    maxText = pyJoin ", "
      (((List.range 7).map
          (fun i => "nine hundred and ninety nine" ++ ((LARGE (9 - i)).getD "") ++ "s")) ++
        ["nine hundred and ninety nine thousand", "nine hundred and ninety nine"]) ∧
    convertNumber (.int (MAX_SUPPORTED_NUMBER + 1)) = .error (.valueError NUMBER_TOO_LARGE) ∧
    containsSub NUMBER_TOO_LARGE "27" = true :=
  ⟨rfl, by decide, rfl, by decide⟩

/-- **C1 (counterexample).**  For `n = -10^26` (27 digits plus a sign, so
`str(n)` has 28 characters) the integer input converts successfully while the
string input fails the length check, so the two runs differ. -/
theorem c1_counterexample :
    convertNumber (.int (-100000000000000000000000000)) = .ok "minus, one hundred septillions" ∧
    convertNumber (.str (intToString (-100000000000000000000000000))) =
      .error (.valueError NUMBER_TOO_LARGE) ∧
    convertNumber (.int (-100000000000000000000000000)) ≠
      convertNumber (.str (intToString (-100000000000000000000000000))) :=
  ⟨rfl, rfl, by decide⟩

/-- **C2 (counterexample).**  `validate_number` accepts the string "0123",
but the conversion then raises `IndexError` inside `_add_hundreds` (the
leftmost digit group "0" strips to the empty string), so validation is not
the only failure path. -/
theorem c2_counterexample :
    validate_number (.str "0123".data) = .ok "0123".data ∧
    convertNumber (.str "0123".data) = .error .indexError :=
  ⟨rfl, rfl⟩

/-- **C3 (counterexample).**  "000001001" is a zero-padded decimal string
denoting 1001 (9 characters, within the length limit), yet it converts to
"one thousand, one" while 1001 converts to "one thousand and one": the
padding suppresses the "and" insertion because the leftmost all-zero group
makes the first word of the mutated word list empty. -/
theorem c3_counterexample :
    convertNumber (.int 1001) = .ok "one thousand and one" ∧
    convertNumber (.str "000001001".data) = .ok "one thousand, one" ∧
    convertNumber (.str "000001001".data) ≠ convertNumber (.int 1001) :=
  ⟨rfl, rfl, by decide⟩

/-- **C4 (counterexample).**  For the input "--5", the remainder after
trimming whitespace and *at most one* leading minus still contains the
non-digit character '-', so the claim predicts the not-digits error; but
`validate_number` strips *all* leading minuses before the digit test and
accepts the string (conversion later fails in `int()` instead). -/
theorem c4_counterexample :
    (pyStrip "--5".data).headD ' ' = '-' ∧
    ((pyStrip "--5".data).drop 1).any (fun c => !isDigitChar c) = true ∧
    validate_number (.str "--5".data) = .ok "--5".data ∧
    convertNumber (.str "--5".data) =
      .error (.valueError ("invalid literal for int() with base 10: " ++ String.mk "--5".data)) :=
  ⟨rfl, rfl, rfl, rfl⟩

/-! ## Character and digit-string lemmas -/

theorem isDigitChar_not_space {c : Char} (h : isDigitChar c = true) : isPySpace c = false := by
  simp only [isDigitChar, Bool.and_eq_true, decide_eq_true_eq] at h
  simp only [isPySpace, Bool.or_eq_false_iff, beq_eq_false_iff_ne, ne_eq]
  omega

theorem isDigitChar_ne_minus {c : Char} (h : isDigitChar c = true) : (c == '-') = false := by
  cases hbe : c == '-' with
  | false => rfl
  | true =>
    have hc : c = '-' := eq_of_beq hbe
    subst hc
    exact absurd h (by decide)

theorem isDigitChar_ne_plus {c : Char} (h : isDigitChar c = true) : (c == '+') = false := by
  cases hbe : c == '+' with
  | false => rfl
  | true =>
    have hc : c = '+' := eq_of_beq hbe
    subst hc
    exact absurd h (by decide)

theorem isDigitChar_ne_space {c : Char} (h : isDigitChar c = true) : (c == ' ') = false := by
  cases hbe : c == ' ' with
  | false => rfl
  | true =>
    have hc : c = ' ' := eq_of_beq hbe
    subst hc
    exact absurd h (by decide)

theorem charVal_le_nine {c : Char} (h : isDigitChar c = true) : charVal c ≤ 9 := by
  simp only [isDigitChar, Bool.and_eq_true, decide_eq_true_eq] at h
  simp only [charVal]
  omega

theorem dropWhile_cons_false {p : Char → Bool} {c : Char} {l : List Char} (h : p c = false) :
    (c :: l).dropWhile p = c :: l := by
  simp [List.dropWhile_cons, h]

theorem dropWhile_eq_self_of_all {p : Char → Bool} {l : List Char}
    (h : ∀ c ∈ l, p c = false) : l.dropWhile p = l := by
  cases l with
  | nil => rfl
  | cons c t => exact dropWhile_cons_false (h c (by simp))

theorem pyStrip_eq_self {l : List Char} (h : ∀ c ∈ l, isPySpace c = false) : pyStrip l = l := by
  unfold pyStrip
  rw [dropWhile_eq_self_of_all h,
    dropWhile_eq_self_of_all (fun c hc => h c (List.mem_reverse.mp hc)), List.reverse_reverse]

theorem pyStripSpaces_eq_self {l : List Char} (h : ∀ c ∈ l, (c == ' ') = false) :
    pyStripSpaces l = l := by
  unfold pyStripSpaces
  rw [dropWhile_eq_self_of_all h,
    dropWhile_eq_self_of_all (fun c hc => h c (List.mem_reverse.mp hc)), List.reverse_reverse]

/-! ## Lemmas about `natDigits` and `digitsVal` -/

theorem natDigitsAux_fuel : ∀ (n f₁ f₂ : Nat), n < f₁ → n < f₂ →
    natDigitsAux f₁ n = natDigitsAux f₂ n := by
  intro n
  induction n using Nat.strong_induction_on with
  | _ n ih =>
    intro f₁ f₂ h₁ h₂
    cases f₁ with
    | zero => omega
    | succ fa =>
      cases f₂ with
      | zero => omega
      | succ fb =>
        simp only [natDigitsAux]
        by_cases h10 : n < 10
        · simp [h10]
        · have hdiv : n / 10 < n := Nat.div_lt_self (by omega) (by omega)
          simp only [h10, if_false]
          rw [ih (n / 10) hdiv fa fb (by omega) (by omega)]

theorem natDigits_lt10 {n : Nat} (h : n < 10) : natDigits n = [digitChar n] := by
  simp [natDigits, natDigitsAux, h]

theorem natDigits_ge10 {n : Nat} (h : 10 ≤ n) :
    natDigits n = natDigits (n / 10) ++ [digitChar (n % 10)] := by
  have hdiv : n / 10 < n := Nat.div_lt_self (by omega) (by omega)
  have h1 : natDigits n = natDigitsAux n (n / 10) ++ [digitChar (n % 10)] := by
    simp [natDigits, natDigitsAux, Nat.not_lt.mpr h]
  rw [h1, natDigitsAux_fuel (n / 10) n (n / 10 + 1) (by omega) (by omega)]
  rfl

theorem charVal_digitChar : ∀ d, d < 10 → charVal (digitChar d) = d := by decide

theorem isDigitChar_digitChar (d : Nat) : isDigitChar (digitChar d) = true := by
  unfold digitChar
  split <;> decide

theorem digitChar_ne_zeroChar : ∀ d, d < 10 → 0 < d → (digitChar d == '0') = false := by decide

theorem digitsValAux_append (l : List Char) (c : Char) : ∀ a,
    digitsValAux a (l ++ [c]) = 10 * digitsValAux a l + charVal c := by
  induction l with
  | nil => intro a; rfl
  | cons x t ih =>
    intro a
    exact ih (10 * a + charVal x)

theorem digitsVal_natDigits : ∀ n, digitsVal (natDigits n) = n := by
  intro n
  induction n using Nat.strong_induction_on with
  | _ n ih =>
    by_cases h : n < 10
    · rw [natDigits_lt10 h]
      show 10 * 0 + charVal (digitChar n) = n
      rw [charVal_digitChar n h]
      omega
    · have h10 : 10 ≤ n := by omega
      have hdiv : n / 10 < n := Nat.div_lt_self (by omega) (by omega)
      rw [natDigits_ge10 h10]
      show digitsValAux 0 (natDigits (n / 10) ++ [digitChar (n % 10)]) = n
      rw [digitsValAux_append]
      have hmod : n % 10 < 10 := Nat.mod_lt _ (by omega)
      rw [charVal_digitChar _ hmod]
      have := ih (n / 10) hdiv
      simp only [digitsVal] at this
      rw [this]
      omega

theorem natDigits_ne_nil (n : Nat) : natDigits n ≠ [] := by
  by_cases h : n < 10
  · rw [natDigits_lt10 h]; simp
  · rw [natDigits_ge10 (by omega)]; simp

theorem natDigits_all_digit : ∀ n, ∀ c ∈ natDigits n, isDigitChar c = true := by
  intro n
  induction n using Nat.strong_induction_on with
  | _ n ih =>
    intro c hc
    by_cases h : n < 10
    · rw [natDigits_lt10 h] at hc
      simp at hc
      rw [hc]
      exact isDigitChar_digitChar n
    · have hdiv : n / 10 < n := Nat.div_lt_self (by omega) (by omega)
      rw [natDigits_ge10 (by omega)] at hc
      rcases List.mem_append.mp hc with h1 | h1
      · exact ih (n / 10) hdiv c h1
      · simp at h1
        rw [h1]
        exact isDigitChar_digitChar _

theorem natDigits_head_ne_zero : ∀ n, 0 < n → ∀ c, (natDigits n).head? = some c →
    (c == '0') = false := by
  intro n
  induction n using Nat.strong_induction_on with
  | _ n ih =>
    intro hn c hc
    by_cases h : n < 10
    · rw [natDigits_lt10 h] at hc
      simp at hc
      rw [← hc]
      exact digitChar_ne_zeroChar n h hn
    · have hdiv : n / 10 < n := Nat.div_lt_self (by omega) (by omega)
      have hpos : 0 < n / 10 := Nat.div_pos (by omega) (by omega)
      obtain ⟨x, t, he⟩ := List.exists_cons_of_ne_nil (natDigits_ne_nil (n / 10))
      rw [natDigits_ge10 (by omega), he] at hc
      simp at hc
      refine ih (n / 10) hdiv hpos c ?_
      rw [he, ← hc]
      rfl

theorem isdigit_of_all {l : List Char} (hne : l ≠ []) (h : ∀ c ∈ l, isDigitChar c = true) :
    isdigit l = true := by
  cases l with
  | nil => exact absurd rfl hne
  | cons c t =>
    simp only [isdigit, List.isEmpty_cons, Bool.not_false, Bool.true_and]
    rw [List.all_eq_true]
    exact h

theorem isdigit_natDigits (n : Nat) : isdigit (natDigits n) = true :=
  isdigit_of_all (natDigits_ne_nil n) (natDigits_all_digit n)

theorem lstripMinus_of_digits {l : List Char} (h : ∀ c ∈ l, isDigitChar c = true) :
    lstripMinus l = l :=
  dropWhile_eq_self_of_all (fun c hc => isDigitChar_ne_minus (h c hc))

theorem lstripMinus_natDigits (n : Nat) : lstripMinus (natDigits n) = natDigits n :=
  lstripMinus_of_digits (natDigits_all_digit n)

theorem lstripMinus_cons_minus (l : List Char) : lstripMinus ('-' :: l) = lstripMinus l := by
  simp [lstripMinus, List.dropWhile_cons]

theorem digitsValAux_lt : ∀ (l : List Char), (∀ c ∈ l, isDigitChar c = true) → ∀ a,
    digitsValAux a l < (a + 1) * 10 ^ l.length := by
  intro l
  induction l with
  | nil =>
    intro _ a
    show a < (a + 1) * 10 ^ (0:Nat)
    simp
  | cons c t ih =>
    intro h a
    have hc : charVal c ≤ 9 := charVal_le_nine (h c (by simp))
    have h2 := ih (fun x hx => h x (by simp [hx])) (10 * a + charVal c)
    have h3 : (10 * a + charVal c + 1) * 10 ^ t.length ≤ (a + 1) * 10 ^ (t.length + 1) := by
      have hm : 10 * a + charVal c + 1 ≤ 10 * (a + 1) := by omega
      calc (10 * a + charVal c + 1) * 10 ^ t.length
          ≤ 10 * (a + 1) * 10 ^ t.length := Nat.mul_le_mul_right _ hm
        _ = (a + 1) * 10 ^ (t.length + 1) := by rw [pow_succ]; ring
    have h4 : digitsValAux a (c :: t) = digitsValAux (10 * a + charVal c) t := rfl
    rw [h4, List.length_cons]
    exact lt_of_lt_of_le h2 h3

theorem digitsVal_lt (l : List Char) (h : ∀ c ∈ l, isDigitChar c = true) :
    digitsVal l < 10 ^ l.length := by
  have h2 := digitsValAux_lt l h 0
  simpa [digitsVal] using h2

theorem natDigits_length_le : ∀ (k n : Nat), 0 < k → n < 10 ^ k → (natDigits n).length ≤ k := by
  intro k
  induction k with
  | zero => intro n h; omega
  | succ k ih =>
    intro n _ hn
    by_cases h : n < 10
    · rw [natDigits_lt10 h]
      simp only [List.length_singleton]
      omega
    · rw [natDigits_ge10 (by omega), List.length_append]
      simp only [List.length_singleton]
      have hk0 : 0 < k := by
        rcases Nat.eq_zero_or_pos k with hz | hp
        · subst hz
          rw [pow_one] at hn
          omega
        · exact hp
      have hdiv : n / 10 < 10 ^ k := by
        rw [Nat.div_lt_iff_lt_mul (by omega : (0:Nat) < 10), ← pow_succ]
        exact hn
      have := ih (n / 10) hk0 hdiv
      omega

theorem natDigits_length_val (n : Nat) : n < 10 ^ (natDigits n).length := by
  have h := digitsVal_lt (natDigits n) (natDigits_all_digit n)
  rwa [digitsVal_natDigits n] at h

theorem pyInt_digits {l : List Char} (hne : l ≠ []) (h : ∀ c ∈ l, isDigitChar c = true) :
    pyInt l = some ((digitsVal l : Int)) := by
  obtain ⟨c, t, he⟩ := List.exists_cons_of_ne_nil hne
  subst he
  have hc : isDigitChar c = true := h c (by simp)
  have hps : pyStripL (c :: t) = c :: t :=
    dropWhile_cons_false (isDigitChar_not_space hc)
  unfold pyInt
  rw [hps]
  show (if c == '-' then _ else if c == '+' then _ else
    if isdigit (c :: t) then some ((digitsVal (c :: t) : Int)) else none) = _
  rw [isDigitChar_ne_minus hc, isDigitChar_ne_plus hc]
  simp only [Bool.false_eq_true, if_false]
  rw [isdigit_of_all (by simp) h]
  rfl

theorem pyInt_natDigits (n : Nat) : pyInt (natDigits n) = some ((n : Int)) := by
  rw [pyInt_digits (natDigits_ne_nil n) (natDigits_all_digit n), digitsVal_natDigits n]

theorem pyInt_minus_digits {l : List Char} (hne : l ≠ []) (h : ∀ c ∈ l, isDigitChar c = true) :
    pyInt ('-' :: l) = some (-(digitsVal l : Int)) := by
  have hps : pyStripL ('-' :: l) = '-' :: l := dropWhile_cons_false (by decide)
  unfold pyInt
  rw [hps]
  show (if '-' == '-' then (if isdigit l then some (-(digitsVal l : Int)) else none) else _) = _
  rw [if_pos (by decide), if_pos (isdigit_of_all hne h)]

theorem intToString_chars (n : Int) : ∀ c ∈ intToString n, isDigitChar c = true ∨ c = '-' := by
  intro c hc
  by_cases h : n < 0
  · simp only [intToString, if_pos h] at hc
    rcases List.mem_cons.mp hc with h1 | h1
    · right; exact h1
    · left; exact natDigits_all_digit _ c h1
  · simp only [intToString, if_neg h] at hc
    left; exact natDigits_all_digit _ c hc

theorem validate_str_eq (s : List Char) : validate_number (.str s) =
    if (!isdigit (lstripMinus (pyStrip s))) = true then
      .error (.valueError (notDigitsMsg s))
    else if s.length > MAX_SUPPORTED_NUMBER_LENGTH then
      .error (.valueError NUMBER_TOO_LARGE)
    else .ok (pyStrip s) := rfl

theorem validate_int_eq (n : Int) : validate_number (.int n) =
    if n > MAX_SUPPORTED_NUMBER then .error (.valueError NUMBER_TOO_LARGE)
    else .ok (intToString n) := rfl

theorem notDigitsMsg_ne_tooLarge (s : List Char) : notDigitsMsg s ≠ NUMBER_TOO_LARGE := by
  intro h
  have hd : (notDigitsMsg s).data.head? = NUMBER_TOO_LARGE.data.head? := by rw [h]
  have h1 : (notDigitsMsg s).data.head? = some quoteChar := rfl
  have h2 : NUMBER_TOO_LARGE.data.head? = some 'N' := rfl
  rw [h1, h2] at hd
  exact absurd (Option.some.inj hd) (by decide)

/-- **C4 (amended).**  `validate_number` fails with the not-digits error —
whose message includes the offending literal value — exactly when the input
is a string that, after trimming surrounding whitespace and *all* leading
minus signs, is empty or contains a character that is not a digit (this is
the `isdigit` test of the source; the claim's "at most one leading minus" is
refuted by `c4_counterexample`). -/
theorem c4_amended (s : List Char) :
    validate_number (.str s) = .error (.valueError (notDigitsMsg s)) ↔
      isdigit (lstripMinus (pyStrip s)) = false := by
  constructor
  · intro h
    cases hx : isdigit (lstripMinus (pyStrip s)) with
    | false => rfl
    | true =>
      exfalso
      rw [validate_str_eq s, hx] at h
      rw [if_neg (by simp)] at h
      split at h
      · exact notDigitsMsg_ne_tooLarge s (PyError.valueError.inj (Except.error.inj h)).symm
      · exact Except.noConfusion h
  · intro h
    rw [validate_str_eq s, h]
    rfl

/-- Witness for `c4_amended` at the spec's own invalid input "3.14". -/
theorem c4_witness :
    validate_number (.str "3.14".data) = .error (.valueError (notDigitsMsg "3.14".data)) :=
  (c4_amended "3.14".data).mpr (by decide)

/-- **C1 (amended).**  Converting the integer `n` and converting its decimal
string produce identical output whenever `str(n)` has at most 27 characters
(sign included) — that is, for all `0 ≤ n ≤ MAX` and for negative `n` of at
most 26 digits.  (For negative `n` with 27 digits the string path fails the
raw-length check while the integer path succeeds: `c1_counterexample`.) -/
theorem c1_amended (n : Int) (h : (intToString n).length ≤ 27) :
    convertNumber (.int n) = convertNumber (.str (intToString n)) := by
  have hmax : ¬ n > MAX_SUPPORTED_NUMBER := by
    by_cases hneg : n < 0
    · unfold MAX_SUPPORTED_NUMBER
      omega
    · have hn : intToString n = natDigits n.toNat := by simp [intToString, hneg]
      rw [hn] at h
      have hlt : n.toNat < 10 ^ (natDigits n.toNat).length := natDigits_length_val _
      have hle : (10:Nat) ^ (natDigits n.toNat).length ≤ 10 ^ 27 :=
        Nat.pow_le_pow_right (by omega) h
      have h10 : (10:Nat) ^ 27 = 1000000000000000000000000000 := by norm_num
      have hlt2 : n.toNat < 1000000000000000000000000000 := by omega
      have hnn : (0:Int) ≤ n := by omega
      have htn := Int.toNat_of_nonneg hnn
      unfold MAX_SUPPORTED_NUMBER
      omega
  have hchars := intToString_chars n
  have hstrip : pyStrip (intToString n) = intToString n := by
    refine pyStrip_eq_self (fun c hc => ?_)
    rcases hchars c hc with hd | hd
    · exact isDigitChar_not_space hd
    · rw [hd]; decide
  have hdig : isdigit (lstripMinus (intToString n)) = true := by
    by_cases hneg : n < 0
    · have he : intToString n = '-' :: natDigits n.natAbs := by simp [intToString, hneg]
      rw [he, lstripMinus_cons_minus, lstripMinus_natDigits]
      exact isdigit_natDigits _
    · have he : intToString n = natDigits n.toNat := by simp [intToString, hneg]
      rw [he, lstripMinus_natDigits]
      exact isdigit_natDigits _
  have hvi : validate_number (.int n) = .ok (intToString n) := by
    rw [validate_int_eq n, if_neg hmax]
  have hvs : validate_number (.str (intToString n)) = .ok (intToString n) := by
    rw [validate_str_eq (intToString n), hstrip, hdig]
    rw [if_neg (by simp)]
    rw [if_neg (by unfold MAX_SUPPORTED_NUMBER_LENGTH; omega)]
  unfold convertNumber
  rw [hvi, hvs]

/-- Witness for `c1_amended` at `n = 123`. -/
theorem c1_witness :
    (intToString 123).length ≤ 27 ∧
      convertNumber (.int 123) = convertNumber (.str (intToString 123)) :=
  ⟨by decide, c1_amended 123 (by decide)⟩

/-- **C5.**  For every input whose validated value equals zero the conversion
returns exactly the word "zero" — no magnitude words, no negative marker;
in particular for `0`, `"0"`, `-0`, `"-0"` and the all-zero padded "000". -/
theorem c5_zero_word :
    (∀ (inp : PyInput) (v : List Char), validate_number inp = .ok v →
      pyInt v = some 0 → convertNumber inp = .ok ZERO_WORD) ∧
    convertNumber (.int 0) = .ok "zero" ∧
    convertNumber (.str "0".data) = .ok "zero" ∧
    convertNumber (.int (-0)) = .ok "zero" ∧
    convertNumber (.str "-0".data) = .ok "zero" ∧
    convertNumber (.str "000".data) = .ok "zero" := by
  refine ⟨?_, rfl, rfl, rfl, rfl, rfl⟩
  intro inp v hval hint
  unfold convertNumber
  rw [hval]
  show read_number v = .ok ZERO_WORD
  unfold read_number
  rw [hint]
  rfl

/-- Witness for `c5_zero_word` at the padded zero string " -00 ". -/
theorem c5_witness : convertNumber (.str " -00 ".data) = .ok ZERO_WORD :=
  c5_zero_word.1 (.str " -00 ".data) "-00".data (by rfl) (by rfl)

/-- **C7.**  The suffix chosen for a group is the plural form
`LARGE[grade] ++ "s"` exactly when the group's numeric value is greater
than 1 and the grade is not 2 (thousand is never pluralized), and the
singular form otherwise — the plural form always differs from the singular —
and the spec's examples hold: `convert(1000000)` contains "one million" and
not "millions", `convert(2000000)` contains "two millions", `convert(2000)`
contains "two thousand" and never "thousands". -/
theorem c7_pluralization :
    (∀ (grade : Nat) (lw : String) (g : List Char), LARGE grade = some lw →
      suffix_to_add lw (decide (1 < digitsVal g)) grade =
        if 1 < digitsVal g ∧ grade ≠ 2 then lw ++ "s" else lw) ∧
    (∀ lw : String, lw ++ "s" ≠ lw) ∧
    convertNumber (.int 1000000) = .ok "one million" ∧
    containsSub "one million" "one million" = true ∧
    containsSub "one million" "millions" = false ∧
    convertNumber (.int 2000000) = .ok "two millions" ∧
    containsSub "two millions" "two millions" = true ∧
    convertNumber (.int 2000) = .ok "two thousand" ∧
    containsSub "two thousand" "thousands" = false := by
  refine ⟨?_, ?_, rfl, by decide, by decide, rfl, by decide, rfl, by decide⟩
  · intro grade lw g _
    unfold suffix_to_add
    by_cases hp : 1 < digitsVal g
    · by_cases hg : grade = 2
      · subst hg
        simp [hp]
      · have hbe : (grade == 2) = false := by simp [hg]
        simp [hp, hbe, hg]
    · simp [hp]
  · intro lw h
    have h2 : (lw ++ "s").data = lw.data := congrArg String.data h
    rw [String.data_append] at h2
    have h3 := congrArg List.length h2
    rw [List.length_append] at h3
    have h4 : "s".data.length = 1 := rfl
    omega

/-- Witness for `c7_pluralization` at grade 3 with group "2". -/
theorem c7_witness :
    suffix_to_add " million" (decide (1 < digitsVal ['2'])) 3 = " millions" := by
  rw [c7_pluralization.1 3 " million" ['2'] rfl]
  decide

/-! ## Generic list helper lemmas -/

theorem head?_append_left {α : Type} {l l' : List α} (h : l ≠ []) : (l ++ l').head? = l.head? := by
  cases l with
  | nil => exact absurd rfl h
  | cons a t => rfl

theorem getLast?_append_right {α : Type} {l l' : List α} (h : l' ≠ []) :
    (l ++ l').getLast? = l'.getLast? := by
  rw [← List.head?_reverse, ← List.head?_reverse, List.reverse_append]
  exact head?_append_left (by simpa using h)

theorem head?_mem {α : Type} {l : List α} {a : α} (h : l.head? = some a) : a ∈ l := by
  cases l with
  | nil => exact absurd h (by simp)
  | cons x t =>
    rw [List.head?_cons] at h
    rw [← Option.some.inj h]
    exact List.mem_cons_self x t

theorem getLast?_mem {α : Type} {l : List α} {a : α} (h : l.getLast? = some a) : a ∈ l := by
  rw [← List.head?_reverse] at h
  exact List.mem_reverse.mp (head?_mem h)

theorem ne_nil_of_head? {α : Type} {l : List α} {a : α} (h : l.head? = some a) : l ≠ [] := by
  cases l with
  | nil => exact absurd h (by simp)
  | cons x t => simp

theorem mem_dropWhile {p : Char → Bool} : ∀ {l : List Char} {c : Char},
    c ∈ l.dropWhile p → c ∈ l := by
  intro l
  induction l with
  | nil => intro c h; exact h
  | cons a t ih =>
    intro c h
    rw [List.dropWhile_cons] at h
    split at h
    · exact List.mem_cons_of_mem a (ih h)
    · exact h

theorem take_head? {α : Type} (d : List α) (k : Nat) (hk : 0 < k) :
    (d.take k).head? = d.head? := by
  cases d with
  | nil => simp
  | cons c t =>
    cases k with
    | zero => omega
    | succ k => rfl

theorem lookup_mem : ∀ {cache : List (List Char × String)} {k : List Char} {v : String},
    cache.lookup k = some v → (k, v) ∈ cache := by
  intro cache
  induction cache with
  | nil => intro k v h; exact absurd h (by simp)
  | cons p t ih =>
    obtain ⟨pk, pv⟩ := p
    intro k v h
    simp only [List.lookup] at h
    cases hbe : k == pk with
    | true =>
      rw [hbe] at h
      have h1 : k = pk := eq_of_beq hbe
      have h2 : pv = v := Option.some.inj h
      rw [h1, ← h2]
      exact List.mem_cons_self _ _
    | false =>
      rw [hbe] at h
      exact List.mem_cons_of_mem _ (ih h)

/-! ## Lemmas about `fmtRevAux`, `chunksRight3` and `intercalateSp` -/

theorem fmtRevAux_congr : ∀ (l : List Char) (i j : Nat), i % 3 = j % 3 →
    fmtRevAux i l = fmtRevAux j l := by
  intro l
  induction l with
  | nil => intro i j _; rfl
  | cons c t ih =>
    intro i j h
    have h1 : (i + 1) % 3 = (j + 1) % 3 := by omega
    simp only [fmtRevAux]
    rw [h1, ih (i + 1) (j + 1) h1]

theorem fmtRevAux_three (c1 c2 c3 : Char) (rest : List Char) :
    fmtRevAux 0 (c1 :: c2 :: c3 :: rest) = c1 :: c2 :: c3 :: ' ' :: fmtRevAux 0 rest := by
  have h3 : fmtRevAux 3 rest = fmtRevAux 0 rest := fmtRevAux_congr rest 3 0 rfl
  simp [fmtRevAux, h3]

theorem intercalateSpAux_append (A : List (List Char)) (g : List Char) :
    intercalateSpAux (A ++ [g]) = intercalateSpAux A ++ ' ' :: g := by
  induction A with
  | nil => simp [intercalateSpAux]
  | cons a A ih => simp [intercalateSpAux, ih]

theorem intercalateSp_append {A : List (List Char)} (hA : A ≠ []) (g : List Char) :
    intercalateSp (A ++ [g]) = intercalateSp A ++ ' ' :: g := by
  cases A with
  | nil => exact absurd rfl hA
  | cons a A => simp [intercalateSp, intercalateSpAux_append, List.append_assoc]

theorem mem_intercalateSpAux : ∀ {gs : List (List Char)} {c : Char},
    c ∈ intercalateSpAux gs → (∃ g ∈ gs, c ∈ g) ∨ c = ' ' := by
  intro gs
  induction gs with
  | nil => intro c h; exact absurd h (by simp [intercalateSpAux])
  | cons g gs ih =>
    intro c h
    simp only [intercalateSpAux, List.mem_cons, List.mem_append] at h
    rcases h with h | h | h
    · right; exact h
    · left; exact ⟨g, by simp, h⟩
    · rcases ih h with ⟨g', hg', hc⟩ | h'
      · left; exact ⟨g', by simp [hg'], hc⟩
      · right; exact h'

theorem mem_intercalateSp {gs : List (List Char)} {c : Char}
    (h : c ∈ intercalateSp gs) : (∃ g ∈ gs, c ∈ g) ∨ c = ' ' := by
  cases gs with
  | nil => exact absurd h (by simp [intercalateSp])
  | cons g gs =>
    simp only [intercalateSp, List.mem_append] at h
    rcases h with h | h
    · left; exact ⟨g, by simp, h⟩
    · rcases mem_intercalateSpAux h with ⟨g', hg', hc⟩ | h'
      · left; exact ⟨g', by simp [hg'], hc⟩
      · right; exact h'

theorem chunksRight3Aux_succ (f : Nat) (c : Char) (t : List Char) :
    chunksRight3Aux (f + 1) (c :: t) =
      if (c :: t).length ≤ 3 then [c :: t]
      else chunksRight3Aux f ((c :: t).take ((c :: t).length - 3)) ++
        [(c :: t).drop ((c :: t).length - 3)] := rfl

theorem chunksRight3Aux_fuel : ∀ (N : Nat) (d : List Char), d.length ≤ N →
    ∀ (f₁ f₂ : Nat), d.length ≤ f₁ + 1 → d.length ≤ f₂ + 1 →
      chunksRight3Aux (f₁ + 1) d = chunksRight3Aux (f₂ + 1) d := by
  intro N
  induction N with
  | zero =>
    intro d h f₁ f₂ _ _
    have hd : d = [] := by
      cases d with
      | nil => rfl
      | cons c t => simp at h
    subst hd
    rfl
  | succ N ih =>
    intro d h f₁ f₂ h₁ h₂
    cases d with
    | nil => rfl
    | cons c t =>
      rw [chunksRight3Aux_succ, chunksRight3Aux_succ]
      by_cases h3 : (c :: t).length ≤ 3
      · rw [if_pos h3, if_pos h3]
      · rw [if_neg h3, if_neg h3]
        have hlen : (c :: t).length = t.length + 1 := rfl
        have htl : ((c :: t).take ((c :: t).length - 3)).length = (c :: t).length - 3 := by
          rw [List.length_take]
          omega
        rw [hlen] at h h₁ h₂ h3
        cases f₁ with
        | zero => omega
        | succ a =>
          cases f₂ with
          | zero => omega
          | succ b =>
            rw [ih ((c :: t).take ((c :: t).length - 3)) (by rw [htl, hlen]; omega)
              a b (by rw [htl, hlen]; omega) (by rw [htl, hlen]; omega)]

theorem chunksRight3_eq_aux {d : List Char} {f : Nat} (h : d.length ≤ f + 1) :
    chunksRight3Aux (f + 1) d = chunksRight3 d := by
  cases d with
  | nil => rfl
  | cons c t =>
    show chunksRight3Aux (f + 1) (c :: t) = chunksRight3Aux (t.length + 1) (c :: t)
    exact chunksRight3Aux_fuel (c :: t).length (c :: t) le_rfl f t.length h (by simp)

theorem chunksRight3_small {d : List Char} (hne : d ≠ []) (h : d.length ≤ 3) :
    chunksRight3 d = [d] := by
  cases d with
  | nil => exact absurd rfl hne
  | cons c t =>
    show chunksRight3Aux (t.length + 1) (c :: t) = [c :: t]
    rw [chunksRight3Aux_succ, if_pos h]

theorem chunksRight3_step {d : List Char} (h : 3 < d.length) :
    chunksRight3 d = chunksRight3 (d.take (d.length - 3)) ++ [d.drop (d.length - 3)] := by
  cases d with
  | nil => simp at h
  | cons c t =>
    show chunksRight3Aux (t.length + 1) (c :: t) = _
    rw [chunksRight3Aux_succ, if_neg (by omega)]
    congr 1
    have htl : ((c :: t).take ((c :: t).length - 3)).length = (c :: t).length - 3 := by
      rw [List.length_take]
      omega
    cases ht : t.length with
    | zero =>
      exfalso
      have hlen : (c :: t).length = t.length + 1 := rfl
      omega
    | succ m =>
      have hfuel : ((c :: t).take ((c :: t).length - 3)).length ≤ m + 1 := by
        rw [htl]
        have hlen : (c :: t).length = t.length + 1 := rfl
        omega
      exact chunksRight3_eq_aux hfuel

/-- Bundle of structural properties of the right-to-left 3-grouping. -/
theorem chunksRight3_props : ∀ (N : Nat) (d : List Char), d.length ≤ N → d ≠ [] →
    (chunksRight3 d).flatten = d ∧
    chunksRight3 d ≠ [] ∧
    (∀ g ∈ chunksRight3 d, g ≠ [] ∧ g.length ≤ 3) ∧
    (∀ g ∈ (chunksRight3 d).tail, g.length = 3) ∧
    (chunksRight3 d).length = (d.length + 2) / 3 ∧
    (chunksRight3 d).head? =
      some (d.take (if d.length % 3 = 0 then 3 else d.length % 3)) := by
  intro N
  induction N with
  | zero =>
    intro d h hne
    cases d with
    | nil => exact absurd rfl hne
    | cons c t => simp at h
  | succ N ih =>
    intro d h hne
    by_cases h3 : d.length ≤ 3
    · rw [chunksRight3_small hne h3]
      have hlen : 1 ≤ d.length := by
        cases d with
        | nil => exact absurd rfl hne
        | cons c t => simp
      refine ⟨by simp, by simp, ?_, by simp,
        by simp only [List.length_singleton]; omega, ?_⟩
      · intro g hg
        rw [List.mem_singleton] at hg
        subst hg
        exact ⟨hne, h3⟩
      · rw [List.head?_cons]
        congr 1
        by_cases hm : d.length % 3 = 0
        · rw [if_pos hm]
          have : d.length = 3 := by omega
          rw [← this, List.take_length]
        · rw [if_neg hm]
          have : d.length % 3 = d.length := by omega
          rw [this, List.take_length]
    · push_neg at h3
      have hstep := chunksRight3_step h3
      set init := d.take (d.length - 3) with hinit
      set l3 := d.drop (d.length - 3) with hl3
      have hinitlen : init.length = d.length - 3 := by
        rw [hinit, List.length_take]
        omega
      have hl3len : l3.length = 3 := by
        rw [hl3, List.length_drop]
        omega
      have hinitne : init ≠ [] := by
        intro hc
        rw [hc] at hinitlen
        simp at hinitlen
        omega
      have hdecomp : init ++ l3 = d := List.take_append_drop _ d
      obtain ⟨hflat, hne', hmem, htail, hcount, hhead⟩ :=
        ih init (by omega) hinitne
      rw [hstep]
      refine ⟨?_, by simp, ?_, ?_, ?_, ?_⟩
      · rw [List.flatten_append, hflat]
        simp [hdecomp]
      · intro g hg
        rcases List.mem_append.mp hg with h1 | h1
        · exact hmem g h1
        · rw [List.mem_singleton] at h1
          subst h1
          constructor
          · intro hc
            rw [hc] at hl3len
            simp at hl3len
          · omega
      · intro g hg
        obtain ⟨a, A, hA⟩ := List.exists_cons_of_ne_nil hne'
        rw [hA, List.cons_append, List.tail_cons] at hg
        rcases List.mem_append.mp hg with h1 | h1
        · have : g ∈ (chunksRight3 init).tail := by rw [hA, List.tail_cons]; exact h1
          exact htail g this
        · rw [List.mem_singleton] at h1
          subst h1
          exact hl3len
      · rw [List.length_append, hcount]
        simp only [List.length_singleton]
        omega
      · rw [head?_append_left hne', hhead]
        congr 1
        have hmod : init.length % 3 = d.length % 3 := by omega
        rw [hmod, hinit, List.take_take]
        congr 1
        by_cases hm : d.length % 3 = 0
        · rw [if_pos hm]
          have : min 3 (d.length - 3) = 3 := by omega
          rw [this]
        · rw [if_neg hm]
          have : min (d.length % 3) (d.length - 3) = d.length % 3 := by omega
          rw [this]

/-- `_format_number_string` produces the space-joined 3-groups, with one
leading space exactly when the digit count is a multiple of 3. -/
theorem format_intercalate : ∀ (N : Nat) (d : List Char), d.length ≤ N → d ≠ [] →
    format_number_string d =
      (if d.length % 3 = 0 then [' '] else []) ++ intercalateSp (chunksRight3 d) := by
  intro N
  induction N with
  | zero =>
    intro d h hne
    cases d with
    | nil => exact absurd rfl hne
    | cons c t => simp at h
  | succ N ih =>
    intro d h hne
    by_cases h3 : d.length ≤ 3
    · rw [chunksRight3_small hne h3]
      have h1 : 1 ≤ d.length := by
        cases d with
        | nil => exact absurd rfl hne
        | cons c t => simp
      interval_cases hdl : d.length
      · obtain ⟨a, ha⟩ := List.length_eq_one.mp hdl
        subst ha
        simp [format_number_string, fmtRevAux, intercalateSp, intercalateSpAux]
      · obtain ⟨a, b, ha⟩ := List.length_eq_two.mp hdl
        subst ha
        simp [format_number_string, fmtRevAux, intercalateSp, intercalateSpAux]
      · obtain ⟨a, b, c, ha⟩ := List.length_eq_three.mp hdl
        subst ha
        simp [format_number_string, fmtRevAux, intercalateSp, intercalateSpAux]
    · push_neg at h3
      set init := d.take (d.length - 3) with hinit
      set l3 := d.drop (d.length - 3) with hl3
      have hinitlen : init.length = d.length - 3 := by
        rw [hinit, List.length_take]
        omega
      have hl3len : l3.length = 3 := by
        rw [hl3, List.length_drop]
        omega
      have hinitne : init ≠ [] := by
        intro hc
        rw [hc] at hinitlen
        simp at hinitlen
        omega
      have hdecomp : init ++ l3 = d := List.take_append_drop _ d
      obtain ⟨x, y, z, hxyz⟩ := List.length_eq_three.mp hl3len
      have hrev : d.reverse = z :: y :: x :: init.reverse := by
        rw [← hdecomp, hxyz, List.reverse_append]
        rfl
      have hfmt : format_number_string d =
          format_number_string init ++ ' ' :: [x, y, z] := by
        unfold format_number_string
        rw [hrev, fmtRevAux_three]
        simp
      have hchunks : chunksRight3 d = chunksRight3 init ++ [[x, y, z]] := by
        rw [chunksRight3_step h3, ← hinit, ← hl3, hxyz]
      have hne' : chunksRight3 init ≠ [] :=
        (chunksRight3_props init.length init le_rfl hinitne).2.1
      rw [hfmt, ih init (by omega) hinitne, hchunks,
        intercalateSp_append hne']
      have hmod : init.length % 3 = d.length % 3 := by omega
      rw [hmod]
      simp [List.append_assoc]

/-- Head and last characters of the space-joined grouping are those of the
digit string. -/
theorem intercalate_chunks_head_last : ∀ (N : Nat) (d : List Char), d.length ≤ N → d ≠ [] →
    (intercalateSp (chunksRight3 d)).head? = d.head? ∧
    (intercalateSp (chunksRight3 d)).getLast? = d.getLast? := by
  intro N
  induction N with
  | zero =>
    intro d h hne
    cases d with
    | nil => exact absurd rfl hne
    | cons c t => simp at h
  | succ N ih =>
    intro d h hne
    by_cases h3 : d.length ≤ 3
    · rw [chunksRight3_small hne h3]
      constructor
      · show (d ++ intercalateSpAux []).head? = d.head?
        simp [intercalateSpAux]
      · show (d ++ intercalateSpAux []).getLast? = d.getLast?
        simp [intercalateSpAux]
    · push_neg at h3
      set init := d.take (d.length - 3) with hinit
      set l3 := d.drop (d.length - 3) with hl3
      have hinitlen : init.length = d.length - 3 := by
        rw [hinit, List.length_take]
        omega
      have hl3len : l3.length = 3 := by
        rw [hl3, List.length_drop]
        omega
      have hinitne : init ≠ [] := by
        intro hc
        rw [hc] at hinitlen
        simp at hinitlen
        omega
      have hl3ne : l3 ≠ [] := by
        intro hc
        rw [hc] at hl3len
        simp at hl3len
      have hdecomp : init ++ l3 = d := List.take_append_drop _ d
      have hchunks : chunksRight3 d = chunksRight3 init ++ [l3] := chunksRight3_step h3
      have hne' : chunksRight3 init ≠ [] :=
        (chunksRight3_props init.length init le_rfl hinitne).2.1
      obtain ⟨hih1, _⟩ := ih init (by omega) hinitne
      have hIne : intercalateSp (chunksRight3 init) ≠ [] := by
        intro hc
        rw [hc] at hih1
        obtain ⟨a, t, ha⟩ := List.exists_cons_of_ne_nil hinitne
        rw [ha] at hih1
        exact absurd hih1 (by simp)
      rw [hchunks, intercalateSp_append hne']
      constructor
      · rw [head?_append_left hIne, hih1, ← hdecomp, head?_append_left hinitne]
      · rw [getLast?_append_right (by simp : (' ' :: l3) ≠ []), ← hdecomp,
          getLast?_append_right hl3ne]
        show (([' '] ++ l3).getLast? = l3.getLast?)
        exact getLast?_append_right hl3ne

/-- `.strip(" ")` of the formatted string is exactly the space-joined groups. -/
theorem strip_format (d : List Char) (hne : d ≠ [])
    (hdig : ∀ c ∈ d, isDigitChar c = true) :
    pyStripSpaces (format_number_string d) = intercalateSp (chunksRight3 d) := by
  obtain ⟨hh, hl⟩ := intercalate_chunks_head_last d.length d le_rfl hne
  set I := intercalateSp (chunksRight3 d) with hI
  obtain ⟨c0, t0, hd⟩ := List.exists_cons_of_ne_nil hne
  have hc0 : isDigitChar c0 = true := hdig c0 (by rw [hd]; simp)
  have hIhead : I.head? = some c0 := by rw [hh, hd]; rfl
  obtain ⟨cl, tl, hrev⟩ := List.exists_cons_of_ne_nil
    (show d.reverse ≠ [] by simpa using hne)
  have hcl : isDigitChar cl = true := by
    refine hdig cl ?_
    rw [← List.mem_reverse, hrev]
    simp
  have hIlast : I.getLast? = some cl := by
    rw [hl, ← List.head?_reverse, hrev]
    rfl
  obtain ⟨a, r, hIr⟩ := List.exists_cons_of_ne_nil (ne_nil_of_head? hIhead)
  have ha : a = c0 := by
    rw [hIr, List.head?_cons] at hIhead
    exact Option.some.inj hIhead
  have hdw : I.dropWhile (· == ' ') = I := by
    rw [hIr]
    exact dropWhile_cons_false (by rw [ha]; exact isDigitChar_ne_space hc0)
  rw [format_intercalate d.length d le_rfl hne]
  unfold pyStripSpaces
  have hstep1 : ((if d.length % 3 = 0 then [' '] else []) ++ I).dropWhile (· == ' ') = I := by
    by_cases hm : d.length % 3 = 0
    · rw [if_pos hm]
      show ((' ' :: I).dropWhile (· == ' ')) = I
      rw [List.dropWhile_cons, if_pos (by decide)]
      exact hdw
    · rw [if_neg hm]
      show (I.dropWhile (· == ' ')) = I
      exact hdw
  rw [hstep1]
  obtain ⟨b, rr, hIrr⟩ := List.exists_cons_of_ne_nil
    (show I.reverse ≠ [] from by simpa using ne_nil_of_head? hIhead)
  have hb : b = cl := by
    have hh2 : I.reverse.head? = some cl := by
      rw [List.head?_reverse]
      exact hIlast
    rw [hIrr, List.head?_cons] at hh2
    exact Option.some.inj hh2
  rw [hIrr, dropWhile_cons_false (by rw [hb]; exact isDigitChar_ne_space hcl), ← hIrr,
    List.reverse_reverse]

/-! ## Splitting lemmas -/

theorem pySplitChar_cons (sep c : Char) (t : List Char) :
    pySplitChar sep (c :: t) =
      if c == sep then [] :: pySplitChar sep t
      else
        match pySplitChar sep t with
        | [] => [[c]]
        | g :: gs => (c :: g) :: gs := rfl

theorem pySplitChar_no_sep : ∀ (g : List Char), (∀ c ∈ g, (c == ' ') = false) →
    pySplitChar ' ' g = [g] := by
  intro g
  induction g with
  | nil => intro _; rfl
  | cons c t ih =>
    intro h
    have hc : (c == ' ') = false := h c (by simp)
    rw [pySplitChar_cons, if_neg (by simp [hc])]
    rw [ih (fun x hx => h x (by simp [hx]))]

theorem pySplitChar_append_sep : ∀ (g rest : List Char),
    (∀ c ∈ g, (c == ' ') = false) →
    pySplitChar ' ' (g ++ ' ' :: rest) = g :: pySplitChar ' ' rest := by
  intro g
  induction g with
  | nil =>
    intro rest _
    show pySplitChar ' ' (' ' :: rest) = [] :: pySplitChar ' ' rest
    rw [pySplitChar_cons, if_pos (by decide)]
  | cons c t ih =>
    intro rest h
    have hc : (c == ' ') = false := h c (by simp)
    show pySplitChar ' ' (c :: (t ++ ' ' :: rest)) = (c :: t) :: pySplitChar ' ' rest
    rw [pySplitChar_cons, if_neg (by simp [hc])]
    rw [ih rest (fun x hx => h x (by simp [hx]))]

theorem pySplitChar_intercalate : ∀ (gs : List (List Char)), gs ≠ [] →
    (∀ g ∈ gs, ∀ c ∈ g, (c == ' ') = false) →
    pySplitChar ' ' (intercalateSp gs) = gs := by
  intro gs
  induction gs with
  | nil => intro h _; exact absurd rfl h
  | cons g gs ih =>
    intro _ h
    cases gs with
    | nil =>
      show pySplitChar ' ' (g ++ intercalateSpAux []) = [g]
      rw [show intercalateSpAux ([] : List (List Char)) = [] from rfl, List.append_nil]
      exact pySplitChar_no_sep g (h g (by simp))
    | cons g' gs' =>
      show pySplitChar ' ' (g ++ intercalateSpAux (g' :: gs')) = g :: g' :: gs'
      rw [show intercalateSpAux (g' :: gs') = ' ' :: intercalateSp (g' :: gs') from rfl]
      rw [pySplitChar_append_sep g _ (h g (by simp))]
      rw [ih (by simp) (fun x hx c hc => h x (by simp [hx]) c hc)]

theorem pySplitWsAux_cons (acc : List Char) (c : Char) (rest : List Char) :
    pySplitWsAux acc (c :: rest) =
      if isPySpace c then
        if acc.isEmpty then pySplitWsAux [] rest
        else acc.reverse :: pySplitWsAux [] rest
      else pySplitWsAux (c :: acc) rest := rfl

theorem pySplitWsAux_nil (acc : List Char) :
    pySplitWsAux acc [] = if acc.isEmpty then [] else [acc.reverse] := rfl

theorem pySplitWsAux_run : ∀ (g acc rest : List Char),
    (∀ c ∈ g, isPySpace c = false) →
    pySplitWsAux acc (g ++ rest) = pySplitWsAux (g.reverse ++ acc) rest := by
  intro g
  induction g with
  | nil => intro acc rest _; simp
  | cons c t ih =>
    intro acc rest h
    have hc : isPySpace c = false := h c (by simp)
    show pySplitWsAux acc (c :: (t ++ rest)) = _
    rw [pySplitWsAux_cons, if_neg (by simp [hc])]
    rw [ih (c :: acc) rest (fun x hx => h x (by simp [hx]))]
    simp

theorem pySplitWs_intercalate : ∀ (gs : List (List Char)), gs ≠ [] →
    (∀ g ∈ gs, g ≠ []) → (∀ g ∈ gs, ∀ c ∈ g, isPySpace c = false) →
    pySplitWs (intercalateSp gs) = gs := by
  intro gs
  induction gs with
  | nil => intro h _ _; exact absurd rfl h
  | cons g gs ih =>
    intro _ hne h
    have hgne : g ≠ [] := hne g (by simp)
    have hrevne : (g.reverse.isEmpty) = false := by
      rw [List.isEmpty_eq_false]
      simpa using hgne
    cases gs with
    | nil =>
      show pySplitWsAux [] (g ++ intercalateSpAux []) = [g]
      rw [pySplitWsAux_run g [] _ (h g (by simp))]
      rw [show intercalateSpAux ([] : List (List Char)) = [] from rfl]
      rw [pySplitWsAux_nil]
      rw [List.append_nil]
      rw [if_neg (by simp [hrevne])]
      simp
    | cons g' gs' =>
      show pySplitWsAux [] (g ++ intercalateSpAux (g' :: gs')) = g :: g' :: gs'
      rw [pySplitWsAux_run g [] _ (h g (by simp))]
      rw [show intercalateSpAux (g' :: gs') = ' ' :: intercalateSp (g' :: gs') from rfl]
      rw [pySplitWsAux_cons, if_pos (by decide)]
      rw [List.append_nil]
      rw [if_neg (by simp [hrevne])]
      rw [List.reverse_reverse]
      congr 1
      exact ih (by simp) (fun x hx => hne x (by simp [hx]))
        (fun x hx c hc => h x (by simp [hx]) c hc)

/-! ## Success of the group translation -/

theorem SINGLES_isSome : ∀ k, k ≤ 9 → ∃ w, SINGLES k = some w := by
  intro k hk
  interval_cases k <;> exact ⟨_, rfl⟩

theorem LARGE_isSome : ∀ k, 2 ≤ k → k ≤ 9 → ∃ w, LARGE k = some w := by
  intro k h2 h9
  interval_cases k <;> exact ⟨_, rfl⟩

theorem add_singles_ok {g : List Char} (hne : g ≠ [])
    (hdig : ∀ c ∈ g, isDigitChar c = true) : ∃ w, add_singles g = .ok w := by
  have hgr : g.reverse ≠ [] := by simpa using hne
  obtain ⟨c, t, hrev⟩ := List.exists_cons_of_ne_nil hgr
  have hlast : g.getLast? = some c := by
    rw [← List.head?_reverse, hrev]
    rfl
  have hcd : isDigitChar c = true := by
    refine hdig c ?_
    rw [← List.mem_reverse, hrev]
    simp
  obtain ⟨w, hw⟩ := SINGLES_isSome (charVal c) (charVal_le_nine hcd)
  refine ⟨w, ?_⟩
  unfold add_singles
  rw [hlast]
  show (match SINGLES (charVal c) with
    | none => Except.error PyError.keyError
    | some w => Except.ok w) = Except.ok w
  rw [hw]

theorem digitsVal_zeros_append : ∀ (zs d : List Char), (∀ c ∈ zs, (c == '0') = true) →
    digitsVal (zs ++ d) = digitsVal d := by
  intro zs
  induction zs with
  | nil => intro d _; rfl
  | cons c t ih =>
    intro d h
    have hc : c = '0' := eq_of_beq (h c (by simp))
    show digitsValAux (10 * 0 + charVal c) (t ++ d) = digitsVal d
    rw [hc]
    show digitsValAux 0 (t ++ d) = digitsVal d
    exact ih d (fun x hx => h x (by simp [hx]))

theorem digitsVal_zeros (zs : List Char) (h : ∀ c ∈ zs, (c == '0') = true) :
    digitsVal zs = 0 := by
  have h2 := digitsVal_zeros_append zs [] h
  rw [List.append_nil] at h2
  exact h2

theorem add_hundreds_ok {g : List Char} (hdig : ∀ c ∈ g, isDigitChar c = true)
    (hlen : g.length ≤ 3) (hns : lstripZeros g ≠ []) :
    ∃ w, add_hundreds g = .ok w := by
  have hnsdig : ∀ c ∈ lstripZeros g, isDigitChar c = true :=
    fun c hc => hdig c (mem_dropWhile hc)
  have hle : (lstripZeros g).length ≤ g.length := by
    have h2 : ∀ (l : List Char), (l.dropWhile (· == '0')).length ≤ l.length := by
      intro l
      induction l with
      | nil => simp
      | cons c t ih =>
        rw [List.dropWhile_cons]
        split
        · simp only [List.length_cons]
          omega
        · simp
    exact h2 g
  have hns1 : 1 ≤ (lstripZeros g).length := by
    cases hlz : lstripZeros g with
    | nil => exact absurd hlz hns
    | cons c t => simp
  have hres : ∃ rs, add_hundreds_result (lstripZeros g) = .ok rs ∧ rs ≠ [] := by
    unfold add_hundreds_result
    by_cases h3 : (lstripZeros g).length = 3
    · rw [if_pos h3]
      obtain ⟨c0, t0, hc0⟩ := List.exists_cons_of_ne_nil hns
      have hhd : (lstripZeros g).head? = some c0 := by rw [hc0]; rfl
      rw [hhd]
      have hcd : isDigitChar c0 = true := hnsdig c0 (by rw [hc0]; simp)
      obtain ⟨w, hw⟩ := SINGLES_isSome (charVal c0) (charVal_le_nine hcd)
      show (∃ rs, (match SINGLES (charVal c0) with
        | none => (Except.error PyError.keyError : Except PyError (List String))
        | some w => .ok [w ++ " " ++ HUNDRED, add_decimals (lstripZeros g)]) = .ok rs ∧
          rs ≠ [])
      rw [hw]
      exact ⟨_, rfl, by simp⟩
    · rw [if_neg h3]
      by_cases h2 : (lstripZeros g).length = 2
      · rw [if_pos h2]
        exact ⟨_, rfl, by simp⟩
      · rw [if_neg h2]
        have h1 : (lstripZeros g).length = 1 := by omega
        rw [if_pos h1]
        obtain ⟨w, hw⟩ := add_singles_ok hns hnsdig
        rw [hw]
        exact ⟨[w], rfl, by simp⟩
  obtain ⟨rs, hrs, hrsne⟩ := hres
  obtain ⟨r0, rest, hr⟩ := List.exists_cons_of_ne_nil hrsne
  unfold add_hundreds
  rw [hrs, hr]
  exact ⟨_, rfl⟩

theorem format_digits_ok {g : List Char} (hne : g ≠ [])
    (hdig : ∀ c ∈ g, isDigitChar c = true) (hlen : g.length ≤ 3)
    (hgood : g.length = 3 ∨ lstripZeros g ≠ []) :
    ∃ w, format_digits g = .ok w := by
  unfold format_digits
  by_cases hz : all_digits_are_zeros g
  · rw [if_pos hz]
    exact ⟨"", rfl⟩
  · rw [if_neg hz]
    refine add_hundreds_ok hdig hlen ?_
    rcases hgood with h3 | hns
    · intro hcon
      have hall : ∀ c ∈ g, (c == '0') = true := List.dropWhile_eq_nil_iff.mp hcon
      have htrue : all_digits_are_zeros g = true := by
        unfold all_digits_are_zeros
        rw [Bool.and_eq_true]
        constructor
        · simp [h3]
        · rw [List.all_eq_true]
          intro c hc
          have hc0 : c = '0' := eq_of_beq (hall c hc)
          rw [hc0]
          decide
      exact hz htrue
    · exact hns

theorem create_text_ok : ∀ (gs : List (List Char)) (cache : List (List Char × String)),
    (∀ p ∈ cache, format_digits p.1 = .ok p.2) →
    (∀ g ∈ gs, ∃ w, format_digits g = .ok w) →
    create_text_from_number gs cache = .ok (gs.map groupPhrase) := by
  intro gs
  induction gs with
  | nil => intro cache _ _; rfl
  | cons g gs ih =>
    intro cache hc hgs
    obtain ⟨w, hw⟩ := hgs g (by simp)
    have hgp : groupPhrase g = w := by unfold groupPhrase; rw [hw]
    unfold create_text_from_number
    cases hl : cache.lookup g with
    | some w' =>
      have hw' : format_digits g = .ok w' := hc (g, w') (lookup_mem hl)
      have hww : w' = w := Except.ok.inj (hw'.symm.trans hw)
      rw [ih cache hc (fun x hx => hgs x (by simp [hx]))]
      show Except.ok (w' :: gs.map groupPhrase) = Except.ok ((g :: gs).map groupPhrase)
      rw [List.map_cons, hww, hgp]
    | none =>
      rw [hw]
      show (do
        let rest ← create_text_from_number gs ((g, w) :: cache)
        (Except.ok (w :: rest) : Except PyError (List String))) = _
      have hc' : ∀ p ∈ (g, w) :: cache, format_digits p.1 = .ok p.2 := by
        intro p hp
        rcases List.mem_cons.mp hp with h1 | h1
        · rw [h1]; exact hw
        · exact hc p h1
      rw [ih ((g, w) :: cache) hc' (fun x hx => hgs x (by simp [hx]))]
      show Except.ok (w :: gs.map groupPhrase) = Except.ok ((g :: gs).map groupPhrase)
      rw [List.map_cons, hgp]

theorem suffix_pass_cons (w : String) (ws : List String) (g : List Char)
    (gs : List (List Char)) (additions : List String) :
    suffix_pass (w :: ws) (g :: gs) additions =
      if ws.length + 1 ≤ 1 then
        (do
          let rest ← suffix_pass ws gs additions
          .ok (w :: rest))
      else
        match LARGE (ws.length + 1) with
        | none => .error .keyError
        | some lw =>
          if additions.contains (lw ++ "s") || additions.contains lw then
            (do
              let rest ← suffix_pass ws gs additions
              .ok (w :: rest))
          else if all_digits_are_zeros g then
            (do
              let rest ← suffix_pass ws gs additions
              .ok (w :: rest))
          else
            (do
              let rest ← suffix_pass ws gs
                ((suffix_to_add lw (decide (1 < digitsVal g)) (ws.length + 1)) :: additions)
              .ok ((String.mk (pyStripSpaces w.data) ++
                suffix_to_add lw (decide (1 < digitsVal g)) (ws.length + 1)) :: rest)) := rfl

theorem suffix_pass_cons_some (w : String) (ws : List String) (g : List Char)
    (gs : List (List Char)) (additions : List String) (lw : String)
    (h1 : ¬ ws.length + 1 ≤ 1) (hlw : LARGE (ws.length + 1) = some lw) :
    suffix_pass (w :: ws) (g :: gs) additions =
      if additions.contains (lw ++ "s") || additions.contains lw then
        (do
          let rest ← suffix_pass ws gs additions
          .ok (w :: rest))
      else if all_digits_are_zeros g then
        (do
          let rest ← suffix_pass ws gs additions
          .ok (w :: rest))
      else
        (do
          let rest ← suffix_pass ws gs
            ((suffix_to_add lw (decide (1 < digitsVal g)) (ws.length + 1)) :: additions)
          .ok ((String.mk (pyStripSpaces w.data) ++
            suffix_to_add lw (decide (1 < digitsVal g)) (ws.length + 1)) :: rest)) := by
  rw [suffix_pass_cons, if_neg h1, hlw]

theorem suffix_pass_ok : ∀ (ws : List String) (gs : List (List Char)) (adds : List String),
    ws.length ≤ 9 → ws.length ≤ gs.length → ∃ r, suffix_pass ws gs adds = .ok r := by
  intro ws
  induction ws with
  | nil => intro gs adds _ _; exact ⟨[], rfl⟩
  | cons w ws ih =>
    intro gs adds h9 hlen
    cases gs with
    | nil => simp at hlen
    | cons g gs' =>
      rw [List.length_cons] at h9 hlen
      rw [List.length_cons] at hlen
      by_cases h1 : ws.length + 1 ≤ 1
      · rw [suffix_pass_cons, if_pos h1]
        obtain ⟨r, hr⟩ := ih gs' adds (by omega) (by omega)
        rw [hr]
        exact ⟨w :: r, rfl⟩
      · obtain ⟨lw, hlw⟩ := LARGE_isSome (ws.length + 1) (by omega) (by omega)
        rw [suffix_pass_cons_some w ws g gs' adds lw h1 hlw]
        by_cases hmem : adds.contains (lw ++ "s") || adds.contains lw
        · rw [if_pos hmem]
          obtain ⟨r, hr⟩ := ih gs' adds (by omega) (by omega)
          rw [hr]
          exact ⟨w :: r, rfl⟩
        · rw [if_neg hmem]
          by_cases hz : all_digits_are_zeros g
          · rw [if_pos hz]
            obtain ⟨r, hr⟩ := ih gs' adds (by omega) (by omega)
            rw [hr]
            exact ⟨w :: r, rfl⟩
          · rw [if_neg hz]
            obtain ⟨r, hr⟩ := ih gs'
              ((suffix_to_add lw (decide (1 < digitsVal g)) (ws.length + 1)) :: adds)
              (by omega) (by omega)
            rw [hr]
            exact ⟨_, rfl⟩

theorem final_format_ok (ws : List String) (gs : List (List Char)) (neg : Bool)
    (h9 : ws.length ≤ 9) (hlen : ws.length ≤ gs.length) :
    ∃ out, final_format ws gs neg = .ok out := by
  obtain ⟨r, hr⟩ := suffix_pass_ok ws gs [] h9 hlen
  unfold final_format
  rw [hr]
  exact ⟨final_join r neg, rfl⟩

/-! ## Success of the whole conversion -/

theorem takeWhile_cons_pred {p : Char → Bool} {l rest : List Char} {c : Char}
    (h : l.takeWhile p = c :: rest) : p c = true := by
  cases l with
  | nil => exact absurd h (by simp)
  | cons a t =>
    rw [List.takeWhile_cons] at h
    split at h
    · rename_i hp
      have ha : a = c := (List.cons.inj h).1
      rw [← ha]
      exact hp
    · exact absurd h (by simp)

theorem isdigit_spec {l : List Char} (h : isdigit l = true) :
    l ≠ [] ∧ ∀ c ∈ l, isDigitChar c = true := by
  unfold isdigit at h
  rw [Bool.and_eq_true] at h
  obtain ⟨h1, h2⟩ := h
  constructor
  · intro hc
    rw [hc] at h1
    simp at h1
  · rw [List.all_eq_true] at h2
    exact h2

theorem validate_ok_isdigit (inp : PyInput) (v : List Char)
    (h : validate_number inp = .ok v) : isdigit (lstripMinus v) = true := by
  cases inp with
  | str s =>
    rw [validate_str_eq s] at h
    cases hx : isdigit (lstripMinus (pyStrip s)) with
    | true =>
      rw [hx] at h
      rw [if_neg (by simp)] at h
      split at h
      · exact Except.noConfusion h
      · have hv : v = pyStrip s := (Except.ok.inj h).symm
        rw [hv]
        exact hx
    | false =>
      rw [hx] at h
      simp at h
  | int n =>
    rw [validate_int_eq n] at h
    split at h
    · exact Except.noConfusion h
    · have hv : v = intToString n := (Except.ok.inj h).symm
      rw [hv]
      by_cases hneg : n < 0
      · have he : intToString n = '-' :: natDigits n.natAbs := by simp [intToString, hneg]
        rw [he, lstripMinus_cons_minus, lstripMinus_natDigits]
        exact isdigit_natDigits _
      · have he : intToString n = natDigits n.toNat := by simp [intToString, hneg]
        rw [he, lstripMinus_natDigits]
        exact isdigit_natDigits _

theorem read_number_split_pos (v d : List Char) (val : Int) (hpy : pyInt v = some val)
    (h0 : ¬ val = 0) (hneg : decide (val < 0) = false) (hlsm : lstripMinus v = d) :
    read_number v = (do
      let words ← create_text_from_number (pySplitChar ' '
        (lstripMinus (pyStripSpaces (format_number_string d)))) []
      final_format words
        (pySplitWs (lstripMinus (pyStripSpaces (format_number_string d)))) false) := by
  simp only [read_number, hpy, hlsm, hneg]
  rw [if_neg h0]
  rfl

theorem read_number_split_neg (v d : List Char) (val : Int) (hpy : pyInt v = some val)
    (h0 : ¬ val = 0) (hneg : decide (val < 0) = true) (hlsm : lstripMinus v = d) :
    read_number v = (do
      let words ← create_text_from_number (pySplitChar ' '
        (lstripMinus ('-' :: pyStripSpaces (format_number_string d)))) []
      final_format words
        (pySplitWs (lstripMinus ('-' :: pyStripSpaces (format_number_string d)))) true) := by
  simp only [read_number, hpy, hlsm, hneg]
  rw [if_neg h0]
  rfl

theorem read_number_ok (v : List Char)
    (hmins : (v.takeWhile (· == '-')).length ≤ 1)
    (hdigit : isdigit (lstripMinus v) = true)
    (hlen : (lstripMinus v).length ≤ 27)
    (hz : digitsVal (lstripMinus v) = 0 ∨ shortZeroLead (lstripMinus v) = false) :
    ∃ out, read_number v = .ok out := by
  obtain ⟨hdne, hddig⟩ := isdigit_spec hdigit
  by_cases hdv0 : digitsVal (lstripMinus v) = 0
  · -- the zero branch returns "zero"
    have hsplit : v.takeWhile (· == '-') ++ lstripMinus v = v :=
      List.takeWhile_append_dropWhile (p := (· == '-')) (l := v)
    cases htw : v.takeWhile (· == '-') with
    | nil =>
      have hv : v = lstripMinus v := by
        conv_lhs => rw [← hsplit, htw]
        rw [List.nil_append]
      have hpy : pyInt v = some ((digitsVal (lstripMinus v) : Int)) := by
        conv_lhs => rw [hv]
        exact pyInt_digits hdne hddig
      refine ⟨ZERO_WORD, ?_⟩
      simp only [read_number, hpy, hdv0]
      rfl
    | cons c rest =>
      have hrest : rest = [] := by
        rw [htw] at hmins
        simp at hmins
        exact hmins
      have hc : c = '-' := by
        have hpc := takeWhile_cons_pred htw
        exact eq_of_beq hpc
      have hv : v = '-' :: lstripMinus v := by
        conv_lhs => rw [← hsplit, htw, hrest, hc]
        rfl
      have hpy : pyInt v = some (-((digitsVal (lstripMinus v) : Int))) := by
        conv_lhs => rw [hv]
        exact pyInt_minus_digits hdne hddig
      refine ⟨ZERO_WORD, ?_⟩
      simp only [read_number, hpy, hdv0]
      rfl
  · -- nonzero: the full pipeline succeeds
    have hz' : shortZeroLead (lstripMinus v) = false := by
      rcases hz with h | h
      · exact absurd h hdv0
      · exact h
    set d := lstripMinus v with hd
    obtain ⟨hflat, hcne, hmem3, htail3, hcount, hhead⟩ :=
      chunksRight3_props d.length d le_rfl hdne
    have hmemd : ∀ g ∈ chunksRight3 d, ∀ c ∈ g, c ∈ d := by
      intro g hg c hc
      rw [← hflat]
      exact List.mem_flatten.mpr ⟨g, hg, hc⟩
    have hsplitv : pyStripSpaces (format_number_string d) = intercalateSp (chunksRight3 d) :=
      strip_format d hdne hddig
    have hIchars : ∀ c ∈ intercalateSp (chunksRight3 d), (c == '-') = false := by
      intro c hc
      rcases mem_intercalateSp hc with ⟨g, hg, hcg⟩ | hsp
      · exact isDigitChar_ne_minus (hddig c (hmemd g hg c hcg))
      · rw [hsp]; decide
    have hlsmI : lstripMinus (intercalateSp (chunksRight3 d)) = intercalateSp (chunksRight3 d) :=
      dropWhile_eq_self_of_all hIchars
    have hsc : pySplitChar ' ' (intercalateSp (chunksRight3 d)) = chunksRight3 d :=
      pySplitChar_intercalate _ hcne
        (fun g hg c hc => isDigitChar_ne_space (hddig c (hmemd g hg c hc)))
    have hsw : pySplitWs (intercalateSp (chunksRight3 d)) = chunksRight3 d :=
      pySplitWs_intercalate _ hcne (fun g hg => (hmem3 g hg).1)
        (fun g hg c hc => isDigitChar_not_space (hddig c (hmemd g hg c hc)))
    have hwords : create_text_from_number (chunksRight3 d) [] =
        .ok ((chunksRight3 d).map groupPhrase) := by
      refine create_text_ok _ [] (by simp) ?_
      intro g hg
      obtain ⟨hgne, hgle⟩ := hmem3 g hg
      refine format_digits_ok hgne (fun c hc => hddig c (hmemd g hg c hc)) hgle ?_
      obtain ⟨g₁, rest, hceq⟩ := List.exists_cons_of_ne_nil hcne
      have hg₁ : g₁ = d.take (if d.length % 3 = 0 then 3 else d.length % 3) := by
        rw [hceq, List.head?_cons] at hhead
        exact Option.some.inj hhead
      rcases List.mem_cons.mp (hceq ▸ hg) with hgh | hgt
      · -- the leftmost group
        by_cases hm : d.length % 3 = 0
        · left
          have hd3 : 3 ≤ d.length := by
            have h1 : 1 ≤ d.length := by
              cases hdd : d with
              | nil => exact absurd hdd hdne
              | cons a t => simp
            omega
          rw [hgh, hg₁, if_pos hm, List.length_take]
          omega
        · right
          intro hcon
          have hg₁' : g₁ = d.take (d.length % 3) := by rw [hg₁, if_neg hm]
          have hall : ∀ c ∈ d.take (d.length % 3), (c == '0') = true := by
            refine List.dropWhile_eq_nil_iff.mp ?_
            rw [← hg₁', ← hgh]
            exact hcon
          have htrue : shortZeroLead d = true := by
            unfold shortZeroLead
            rw [Bool.and_eq_true]
            constructor
            · simp [hm]
            · rw [List.all_eq_true]
              exact hall
          rw [htrue] at hz'
          exact Bool.noConfusion hz'
      · left
        refine htail3 g ?_
        rw [hceq, List.tail_cons]
        exact hgt
    have hcount9 : ((chunksRight3 d).map groupPhrase).length ≤ 9 := by
      rw [List.length_map, hcount]
      omega
    have hcountlen : ((chunksRight3 d).map groupPhrase).length ≤ (chunksRight3 d).length := by
      rw [List.length_map]
    have hsplit : v.takeWhile (· == '-') ++ d = v :=
      List.takeWhile_append_dropWhile (p := (· == '-')) (l := v)
    cases htw : v.takeWhile (· == '-') with
    | nil =>
      have hv : v = d := by rw [← hsplit, htw]; rfl
      have hpy : pyInt v = some ((digitsVal d : Int)) := by
        rw [hv]
        exact pyInt_digits hdne hddig
      have hne0 : ¬ ((digitsVal d : Int) = 0) := by
        intro hc
        exact hdv0 (by exact_mod_cast hc)
      have hnegf : decide ((digitsVal d : Int) < 0) = false :=
        decide_eq_false (by simp)
      have heq := read_number_split_pos v d _ hpy hne0 hnegf hd.symm
      rw [heq, hsplitv, hlsmI, hsc, hsw, hwords]
      obtain ⟨out, hout⟩ := final_format_ok ((chunksRight3 d).map groupPhrase)
        (chunksRight3 d) false hcount9 hcountlen
      refine ⟨out, ?_⟩
      show final_format ((chunksRight3 d).map groupPhrase) (chunksRight3 d) false = .ok out
      exact hout
    | cons c rest =>
      have hrest : rest = [] := by
        rw [htw] at hmins
        simp at hmins
        exact hmins
      have hc : c = '-' := by
        have hpc := takeWhile_cons_pred htw
        exact eq_of_beq hpc
      have hv : v = '-' :: d := by
        rw [← hsplit, htw, hrest, hc]
        rfl
      have hpy : pyInt v = some (-((digitsVal d : Int))) := by
        rw [hv]
        exact pyInt_minus_digits hdne hddig
      have hne0 : ¬ (-((digitsVal d : Int)) = 0) := by
        intro hcon
        refine hdv0 ?_
        have h2 : ((digitsVal d : Int)) = 0 := by omega
        exact_mod_cast h2
      have hnegt : decide (-((digitsVal d : Int)) < 0) = true := by
        refine decide_eq_true ?_
        have h2 : 0 < digitsVal d := Nat.pos_of_ne_zero hdv0
        have h3 : (0:Int) < (digitsVal d : Int) := by exact_mod_cast h2
        omega
      have heq := read_number_split_neg v d _ hpy hne0 hnegt hd.symm
      rw [heq, hsplitv, lstripMinus_cons_minus, hlsmI, hsc, hsw, hwords]
      obtain ⟨out, hout⟩ := final_format_ok ((chunksRight3 d).map groupPhrase)
        (chunksRight3 d) true hcount9 hcountlen
      refine ⟨out, ?_⟩
      show final_format ((chunksRight3 d).map groupPhrase) (chunksRight3 d) true = .ok out
      exact hout

theorem takeWhile_eq_nil_of_all {p : Char → Bool} {l : List Char}
    (h : ∀ c ∈ l, p c = false) : l.takeWhile p = [] := by
  cases l with
  | nil => rfl
  | cons c t => rw [List.takeWhile_cons, if_neg (by simp [h c (by simp)])]

theorem shortZeroLead_false_of_head {d : List Char} {c : Char} (hh : d.head? = some c)
    (hc : (c == '0') = false) : shortZeroLead d = false := by
  unfold shortZeroLead
  by_cases hm : d.length % 3 = 0
  · have h1 : (d.length % 3 != 0) = false := by simp [hm]
    rw [h1, Bool.false_and]
  · have hpos : 0 < d.length % 3 := Nat.pos_of_ne_zero hm
    have hth : (d.take (d.length % 3)).head? = some c := by
      rw [take_head? d _ hpos]
      exact hh
    have hcm : c ∈ d.take (d.length % 3) := head?_mem hth
    have hall : (d.take (d.length % 3)).all (· == '0') = false := by
      cases hx : (d.take (d.length % 3)).all (· == '0') with
      | false => rfl
      | true =>
        rw [List.all_eq_true] at hx
        exact absurd (hx c hcm) (by simp [hc])
    rw [hall, Bool.and_false]

/-- **C2 (amended).**  Validation is *not* the only failure path
(`c2_counterexample`); the conversion after a successful validation is
guaranteed to succeed provided the validated string has at most one leading
minus, its digit part has at most 27 digits, and the digit part either
denotes zero or does not begin with a short (1–2 digit) all-zero group.  In
particular conversion succeeds for every integer input with |n| ≤ MAX. -/
theorem c2_amended :
    (∀ (inp : PyInput) (v : List Char), validate_number inp = .ok v →
      (v.takeWhile (· == '-')).length ≤ 1 →
      (lstripMinus v).length ≤ 27 →
      (digitsVal (lstripMinus v) = 0 ∨ shortZeroLead (lstripMinus v) = false) →
      ∃ out, convertNumber inp = .ok out) ∧
    (∀ n : Int, n.natAbs ≤ 999999999999999999999999999 →
      ∃ out, convertNumber (.int n) = .ok out) := by
  have hmain : ∀ (inp : PyInput) (v : List Char), validate_number inp = .ok v →
      (v.takeWhile (· == '-')).length ≤ 1 →
      (lstripMinus v).length ≤ 27 →
      (digitsVal (lstripMinus v) = 0 ∨ shortZeroLead (lstripMinus v) = false) →
      ∃ out, convertNumber inp = .ok out := by
    intro inp v hval hmins hlen hz
    obtain ⟨out, hout⟩ := read_number_ok v hmins (validate_ok_isdigit inp v hval) hlen hz
    refine ⟨out, ?_⟩
    unfold convertNumber
    rw [hval]
    show read_number v = .ok out
    exact hout
  refine ⟨hmain, ?_⟩
  intro n hn
  have h27 : (10:Nat) ^ 27 = 1000000000000000000000000000 := by norm_num
  have hmax : ¬ n > MAX_SUPPORTED_NUMBER := by
    unfold MAX_SUPPORTED_NUMBER
    omega
  have hval : validate_number (.int n) = .ok (intToString n) := by
    rw [validate_int_eq n, if_neg hmax]
  have hlenD : (natDigits n.natAbs).length ≤ 27 :=
    natDigits_length_le 27 n.natAbs (by omega) (by omega)
  have hzD : digitsVal (natDigits n.natAbs) = 0 ∨
      shortZeroLead (natDigits n.natAbs) = false := by
    by_cases h0 : n.natAbs = 0
    · left
      rw [digitsVal_natDigits]
      exact h0
    · right
      obtain ⟨c, t, hct⟩ := List.exists_cons_of_ne_nil (natDigits_ne_nil n.natAbs)
      refine shortZeroLead_false_of_head (c := c) (by rw [hct]; rfl) ?_
      exact natDigits_head_ne_zero n.natAbs (Nat.pos_of_ne_zero h0) c (by rw [hct]; rfl)
  by_cases hneg : n < 0
  · have he : intToString n = '-' :: natDigits n.natAbs := by simp [intToString, hneg]
    refine hmain (.int n) (intToString n) hval ?_ ?_ ?_
    · rw [he]
      rw [List.takeWhile_cons, if_pos (by decide)]
      rw [takeWhile_eq_nil_of_all
        (fun c hc => isDigitChar_ne_minus (natDigits_all_digit _ c hc))]
      simp
    · rw [he, lstripMinus_cons_minus, lstripMinus_natDigits]
      exact hlenD
    · rw [he, lstripMinus_cons_minus, lstripMinus_natDigits]
      exact hzD
  · have he : intToString n = natDigits n.toNat := by simp [intToString, hneg]
    have hta : n.toNat = n.natAbs := by omega
    refine hmain (.int n) (intToString n) hval ?_ ?_ ?_
    · rw [he]
      rw [takeWhile_eq_nil_of_all
        (fun c hc => isDigitChar_ne_minus (natDigits_all_digit _ c hc))]
      simp
    · rw [he, lstripMinus_natDigits, hta]
      exact hlenD
    · rw [he, lstripMinus_natDigits, hta]
      exact hzD

/-- Witness for `c2_amended` at the integer input 123. -/
theorem c2_witness : ∃ out, convertNumber (.int 123) = .ok out :=
  c2_amended.2 123 (by decide)

theorem final_format_neg_map (X : Except PyError (List String)) (gs : List (List Char)) :
    (do
      let words ← X
      final_format words gs true) =
      Except.map (fun r => MINUS ++ ", " ++ r)
        (do
          let words ← X
          final_format words gs false) := by
  cases X with
  | error e => rfl
  | ok ws =>
    show final_format ws gs true =
      Except.map (fun r => MINUS ++ ", " ++ r) (final_format ws gs false)
    unfold final_format
    cases hs : suffix_pass ws gs [] with
    | error e => rfl
    | ok r => rfl

/-- For a nonzero digit string, reading `"-" ++ digits` is exactly the
positive reading with `"minus, "` prefixed. -/
theorem read_number_neg_prefix (d : List Char) (hdne : d ≠ [])
    (hddig : ∀ c ∈ d, isDigitChar c = true) (h0 : digitsVal d ≠ 0) :
    read_number ('-' :: d) =
      Except.map (fun r => MINUS ++ ", " ++ r) (read_number d) := by
  have hlsm : lstripMinus d = d := lstripMinus_of_digits hddig
  have hlsm2 : lstripMinus ('-' :: d) = d := by rw [lstripMinus_cons_minus, hlsm]
  have hne0 : ¬ ((digitsVal d : Int) = 0) := by
    intro hc
    exact h0 (by exact_mod_cast hc)
  have hneg0 : ¬ (-(digitsVal d : Int) = 0) := by
    intro hc
    refine h0 ?_
    have h2 : (digitsVal d : Int) = 0 := by omega
    exact_mod_cast h2
  have hp1 : pyInt d = some ((digitsVal d : Int)) := pyInt_digits hdne hddig
  have hp2 : pyInt ('-' :: d) = some (-(digitsVal d : Int)) := pyInt_minus_digits hdne hddig
  have hnegt : decide (-(digitsVal d : Int) < 0) = true := by
    refine decide_eq_true ?_
    have h2 : (0:Int) < (digitsVal d : Int) := by
      exact_mod_cast Nat.pos_of_ne_zero h0
    omega
  have hnegf : decide ((digitsVal d : Int) < 0) = false := decide_eq_false (by simp)
  rw [read_number_split_neg ('-' :: d) d _ hp2 hneg0 hnegt hlsm2,
    read_number_split_pos d d _ hp1 hne0 hnegf hlsm]
  rw [lstripMinus_cons_minus]
  exact final_format_neg_map _ _

theorem read_number_natDigits_ok (m : Nat) (hlen : (natDigits m).length ≤ 27) :
    ∃ s, read_number (natDigits m) = .ok s := by
  refine read_number_ok (natDigits m) ?_ ?_ ?_ ?_
  · rw [takeWhile_eq_nil_of_all
      (fun c hc => isDigitChar_ne_minus (natDigits_all_digit _ c hc))]
    simp
  · rw [lstripMinus_natDigits]
    exact isdigit_natDigits m
  · rw [lstripMinus_natDigits]
    exact hlen
  · rw [lstripMinus_natDigits]
    by_cases h0 : m = 0
    · left
      rw [digitsVal_natDigits]
      exact h0
    · right
      obtain ⟨c, t, hct⟩ := List.exists_cons_of_ne_nil (natDigits_ne_nil m)
      exact shortZeroLead_false_of_head (c := c) (by rw [hct]; rfl)
        (natDigits_head_ne_zero m (Nat.pos_of_ne_zero h0) c (by rw [hct]; rfl))

/-- **C6.**  For every nonzero integer `0 < n ≤ MAX`, the conversion of `-n`
returns exactly `"minus, "` concatenated with the conversion of `|n| = n`. -/
theorem c6_negative (n : Int) (h1 : 0 < n) (h2 : n ≤ MAX_SUPPORTED_NUMBER) :
    ∃ s, convertNumber (.int n) = .ok s ∧
      convertNumber (.int (-n)) = .ok (MINUS ++ ", " ++ s) := by
  have h27 : (10:Nat) ^ 27 = 1000000000000000000000000000 := by norm_num
  have hmabs : n.toNat < 10 ^ 27 := by
    unfold MAX_SUPPORTED_NUMBER at h2
    omega
  have hlen : (natDigits n.toNat).length ≤ 27 :=
    natDigits_length_le 27 _ (by omega) hmabs
  obtain ⟨s, hs⟩ := read_number_natDigits_ok n.toNat hlen
  have hnn : ¬ n < 0 := by omega
  have hvaln : validate_number (.int n) = .ok (natDigits n.toNat) := by
    rw [validate_int_eq, if_neg (by unfold MAX_SUPPORTED_NUMBER at h2 ⊢; omega)]
    congr 1
    simp [intToString, hnn]
  have hlt : -n < 0 := by omega
  have hvalneg : validate_number (.int (-n)) = .ok ('-' :: natDigits n.toNat) := by
    rw [validate_int_eq, if_neg (by unfold MAX_SUPPORTED_NUMBER at h2 ⊢; omega)]
    congr 1
    simp only [intToString, if_pos hlt]
    congr 2
    omega
  have hminuspre : read_number ('-' :: natDigits n.toNat) =
      Except.map (fun r => MINUS ++ ", " ++ r) (read_number (natDigits n.toNat)) := by
    refine read_number_neg_prefix (natDigits n.toNat) (natDigits_ne_nil _)
      (natDigits_all_digit _) ?_
    rw [digitsVal_natDigits]
    omega
  refine ⟨s, ?_, ?_⟩
  · unfold convertNumber
    rw [hvaln]
    show read_number (natDigits n.toNat) = .ok s
    exact hs
  · unfold convertNumber
    rw [hvalneg]
    show read_number ('-' :: natDigits n.toNat) = .ok (MINUS ++ ", " ++ s)
    rw [hminuspre, hs]
    rfl

/-- Witness for `c6_negative` at `n = 100`, matching the repository's test
`NumberToText(-100) == "minus, one hundred"`. -/
theorem c6_witness :
    ∃ s, convertNumber (.int 100) = .ok s ∧
      convertNumber (.int (-100)) = .ok (MINUS ++ ", " ++ s) :=
  c6_negative 100 (by decide) (by decide)

/-! ## The "suffix already used" guard is dead code -/

theorem contains_eq_false {a : String} {l : List String} (h : ∀ x ∈ l, x ≠ a) :
    l.contains a = false := by
  cases hx : l.contains a with
  | false => rfl
  | true => exact absurd (List.mem_of_elem_eq_true hx) (fun hm => h a hm rfl)

theorem LARGE_dom {k : Nat} {lw : String} (h : LARGE k = some lw) : 2 ≤ k ∧ k ≤ 9 := by
  unfold LARGE at h
  split_ifs at h with h2 h3 h4 h5 h6 h7 h8 h9
  any_goals omega

theorem LARGE_distinct_aux : ∀ (j : Fin 10) (k : Fin 10), j.val ≠ k.val →
    ∀ lj ∈ (LARGE j.val).toList, ∀ lk ∈ (LARGE k.val).toList,
      lj ≠ lk ∧ lj ≠ lk ++ "s" ∧ lj ++ "s" ≠ lk ∧ lj ++ "s" ≠ lk ++ "s" := by decide

theorem LARGE_distinct (j : Nat) (hj : j < 10) (k : Nat) (hk : k < 10) (hjk : j ≠ k)
    (lj lk : String) (hlj : LARGE j = some lj) (hlk : LARGE k = some lk) :
    lj ≠ lk ∧ lj ≠ lk ++ "s" ∧ lj ++ "s" ≠ lk ∧ lj ++ "s" ≠ lk ++ "s" := by
  refine LARGE_distinct_aux ⟨j, hj⟩ ⟨k, hk⟩ hjk lj ?_ lk ?_
  · rw [hlj]
    exact List.mem_singleton.mpr rfl
  · rw [hlk]
    exact List.mem_singleton.mpr rfl

theorem suffix_pass_noguard_cons (w : String) (ws : List String) (g : List Char)
    (gs : List (List Char)) :
    suffix_pass_noguard (w :: ws) (g :: gs) =
      if ws.length + 1 ≤ 1 then
        (do
          let rest ← suffix_pass_noguard ws gs
          .ok (w :: rest))
      else if all_digits_are_zeros g then
        (do
          let rest ← suffix_pass_noguard ws gs
          .ok (w :: rest))
      else
        match LARGE (ws.length + 1) with
        | none => .error .keyError
        | some lw =>
          (do
            let rest ← suffix_pass_noguard ws gs
            .ok ((String.mk (pyStripSpaces w.data) ++
              suffix_to_add lw (decide (1 < digitsVal g)) (ws.length + 1)) :: rest)) := rfl

theorem suffix_pass_noguard_cons_some (w : String) (ws : List String) (g : List Char)
    (gs : List (List Char)) (lw : String) (h1 : ¬ ws.length + 1 ≤ 1)
    (hz : all_digits_are_zeros g = false) (hlw : LARGE (ws.length + 1) = some lw) :
    suffix_pass_noguard (w :: ws) (g :: gs) =
      (do
        let rest ← suffix_pass_noguard ws gs
        .ok ((String.mk (pyStripSpaces w.data) ++
          suffix_to_add lw (decide (1 < digitsVal g)) (ws.length + 1)) :: rest)) := by
  rw [suffix_pass_noguard_cons, if_neg h1, if_neg (by simp [hz]), hlw]

theorem suffix_pass_guard_eq : ∀ (ws : List String) (gs : List (List Char))
    (adds : List String),
    (∀ a ∈ adds, ∃ j lw', ws.length < j ∧ LARGE j = some lw' ∧
      (a = lw' ∨ a = lw' ++ "s")) →
    ∀ r, suffix_pass ws gs adds = .ok r → suffix_pass_noguard ws gs = .ok r := by
  intro ws
  induction ws with
  | nil =>
    intro gs adds _ r h
    have h' : Except.ok ([] : List String) = Except.ok r := h
    rw [← Except.ok.inj h']
    rfl
  | cons w ws ih =>
    intro gs adds hinv r h
    cases gs with
    | nil => exact Except.noConfusion (show Except.error PyError.indexError = Except.ok r from h)
    | cons g gs' =>
      have hinv' : ∀ a ∈ adds, ∃ j lw', ws.length < j ∧ LARGE j = some lw' ∧
          (a = lw' ∨ a = lw' ++ "s") := by
        intro a ha
        obtain ⟨j, lw', hj, hl, ho⟩ := hinv a ha
        rw [List.length_cons] at hj
        exact ⟨j, lw', by omega, hl, ho⟩
      by_cases h1 : ws.length + 1 ≤ 1
      · rw [suffix_pass_cons, if_pos h1] at h
        rw [suffix_pass_noguard_cons, if_pos h1]
        cases hs : suffix_pass ws gs' adds with
        | error e =>
          rw [hs] at h
          exact Except.noConfusion (show Except.error e = Except.ok r from h)
        | ok rest =>
          rw [hs] at h
          have h' : Except.ok (w :: rest) = Except.ok r := h
          rw [ih gs' adds hinv' rest hs]
          exact h'
      · cases hlw : LARGE (ws.length + 1) with
        | none =>
          rw [suffix_pass_cons, if_neg h1] at h
          rw [hlw] at h
          exact Except.noConfusion (show Except.error PyError.keyError = Except.ok r from h)
        | some lw =>
          obtain ⟨hg2, hg9⟩ := LARGE_dom hlw
          have hmem : (adds.contains (lw ++ "s") || adds.contains lw) = false := by
            rw [Bool.or_eq_false_iff]
            constructor
            · refine contains_eq_false (fun a ha => ?_)
              obtain ⟨j, lw', hj, hl, ho⟩ := hinv a ha
              rw [List.length_cons] at hj
              obtain ⟨hj2, hj9⟩ := LARGE_dom hl
              have hne := LARGE_distinct j (by omega) (ws.length + 1) (by omega)
                (by omega) lw' lw hl hlw
              rcases ho with rfl | rfl
              · exact hne.2.1
              · exact hne.2.2.2
            · refine contains_eq_false (fun a ha => ?_)
              obtain ⟨j, lw', hj, hl, ho⟩ := hinv a ha
              rw [List.length_cons] at hj
              obtain ⟨hj2, hj9⟩ := LARGE_dom hl
              have hne := LARGE_distinct j (by omega) (ws.length + 1) (by omega)
                (by omega) lw' lw hl hlw
              rcases ho with rfl | rfl
              · exact hne.1
              · exact hne.2.2.1
          rw [suffix_pass_cons_some w ws g gs' adds lw h1 hlw,
            if_neg (by rw [hmem]; exact Bool.false_ne_true)] at h
          by_cases hz : all_digits_are_zeros g
          · rw [if_pos hz] at h
            rw [suffix_pass_noguard_cons, if_neg h1, if_pos hz]
            cases hs : suffix_pass ws gs' adds with
            | error e =>
              rw [hs] at h
              exact Except.noConfusion (show Except.error e = Except.ok r from h)
            | ok rest =>
              rw [hs] at h
              have h' : Except.ok (w :: rest) = Except.ok r := h
              rw [ih gs' adds hinv' rest hs]
              exact h'
          · rw [if_neg hz] at h
            have hzf : all_digits_are_zeros g = false := by
              cases hx : all_digits_are_zeros g with
              | false => rfl
              | true => exact absurd hx hz
            rw [suffix_pass_noguard_cons_some w ws g gs' lw h1 hzf hlw]
            have hinv2 : ∀ a ∈ (suffix_to_add lw (decide (1 < digitsVal g))
                (ws.length + 1)) :: adds, ∃ j lw', ws.length < j ∧ LARGE j = some lw' ∧
                (a = lw' ∨ a = lw' ++ "s") := by
              intro a ha
              rcases List.mem_cons.mp ha with rfl | ha'
              · refine ⟨ws.length + 1, lw, by omega, hlw, ?_⟩
                unfold suffix_to_add
                split
                · exact Or.inl rfl
                · exact Or.inr rfl
              · exact hinv' a ha'
            cases hs : suffix_pass ws gs'
                ((suffix_to_add lw (decide (1 < digitsVal g)) (ws.length + 1)) :: adds) with
            | error e =>
              rw [hs] at h
              exact Except.noConfusion (show Except.error e = Except.ok r from h)
            | ok rest =>
              rw [hs] at h
              have h' : Except.ok ((String.mk (pyStripSpaces w.data) ++
                suffix_to_add lw (decide (1 < digitsVal g)) (ws.length + 1)) :: rest) =
                  Except.ok r := h
              rw [ih gs' _ hinv2 rest hs]
              exact h'

theorem final_format_guard_eq (ws : List String) (gs : List (List Char)) (neg : Bool)
    (s : String) (h : final_format ws gs neg = .ok s) :
    final_format_noguard ws gs neg = .ok s := by
  unfold final_format at h
  unfold final_format_noguard
  cases hs : suffix_pass ws gs [] with
  | error e =>
    rw [hs] at h
    exact Except.noConfusion (show Except.error e = Except.ok s from h)
  | ok r =>
    rw [hs] at h
    have h' : Except.ok (final_join r neg) = Except.ok s := h
    rw [suffix_pass_guard_eq ws gs [] (by simp) r hs]
    exact h'

theorem bind_guard_eq (X : Except PyError (List String)) (gs : List (List Char))
    (neg : Bool) (s : String)
    (h : (do
      let words ← X
      final_format words gs neg) = .ok s) :
    (do
      let words ← X
      final_format_noguard words gs neg) = .ok s := by
  cases X with
  | error e => exact Except.noConfusion (show Except.error e = Except.ok s from h)
  | ok ws =>
    have h' : final_format ws gs neg = .ok s := h
    show final_format_noguard ws gs neg = .ok s
    exact final_format_guard_eq ws gs neg s h'

theorem read_number_guard_eq (v : List Char) (s : String)
    (h : read_number v = .ok s) : read_number_noguard v = .ok s := by
  unfold read_number at h
  unfold read_number_noguard
  cases hpy : pyInt v with
  | none =>
    rw [hpy] at h
    exact Except.noConfusion
      (show Except.error (PyError.valueError
        ("invalid literal for int() with base 10: " ++ String.mk v)) = Except.ok s from h)
  | some val =>
    rw [hpy] at h
    by_cases h0 : val = 0
    · subst h0
      exact h
    · have h' : (if val = 0 then Except.ok ZERO_WORD
        else (do
          let words ← create_text_from_number (pySplitChar ' ' (lstripMinus
            (if decide (val < 0) = true then
              '-' :: pyStripSpaces (format_number_string (lstripMinus v))
            else pyStripSpaces (format_number_string (lstripMinus v))))) []
          final_format words (pySplitWs (lstripMinus
            (if decide (val < 0) = true then
              '-' :: pyStripSpaces (format_number_string (lstripMinus v))
            else pyStripSpaces (format_number_string (lstripMinus v)))))
            (decide (val < 0)))) = Except.ok s := h
      rw [if_neg h0] at h'
      show (if val = 0 then Except.ok ZERO_WORD
        else (do
          let words ← create_text_from_number (pySplitChar ' ' (lstripMinus
            (if decide (val < 0) = true then
              '-' :: pyStripSpaces (format_number_string (lstripMinus v))
            else pyStripSpaces (format_number_string (lstripMinus v))))) []
          final_format_noguard words (pySplitWs (lstripMinus
            (if decide (val < 0) = true then
              '-' :: pyStripSpaces (format_number_string (lstripMinus v))
            else pyStripSpaces (format_number_string (lstripMinus v)))))
            (decide (val < 0)))) = Except.ok s
      rw [if_neg h0]
      exact bind_guard_eq _ _ _ s h'

/-- **C10.**  The "suffix already used" guard in `_final_format` is dead
code: in one conversion the groups have pairwise distinct grades and hence
pairwise distinct magnitude suffixes, so the membership test on `additions`
never blocks; every successful conversion returns the identical output with
the guard removed. -/
theorem c10_guard_dead : ∀ (number : PyInput) (s : String),
    convertNumber number = .ok s → convertNumber_noguard number = .ok s := by
  intro number s h
  unfold convertNumber at h
  unfold convertNumber_noguard
  cases hval : validate_number number with
  | error e =>
    rw [hval] at h
    exact Except.noConfusion (show Except.error e = Except.ok s from h)
  | ok v =>
    rw [hval] at h
    have h' : read_number v = .ok s := h
    show read_number_noguard v = .ok s
    exact read_number_guard_eq v s h'

/-- Witness for `c10_guard_dead` at the input 9876543210. -/
theorem c10_witness :
    convertNumber_noguard (.int 9876543210) =
      .ok "nine billions, eight hundred and seventy six millions, five hundred and forty three thousand, two hundred and ten" :=
  c10_guard_dead (.int 9876543210) _ (by rfl)

/-! ## Padding invariance (whitespace and leading zeros) -/

theorem dropWhile_append_all {p : Char → Bool} {pre : List Char} (l : List Char)
    (h : ∀ c ∈ pre, p c = true) : (pre ++ l).dropWhile p = l.dropWhile p := by
  induction pre with
  | nil => rfl
  | cons c t ih =>
    rw [List.cons_append, List.dropWhile_cons, if_pos (h c (List.mem_cons_self c t))]
    exact ih (fun x hx => h x (List.mem_cons_of_mem c hx))

theorem pyStrip_pad (pre s post : List Char)
    (hpre : ∀ c ∈ pre, isPySpace c = true) (hpost : ∀ c ∈ post, isPySpace c = true)
    (hne : s ≠ [])
    (hh : ∀ c, s.head? = some c → isPySpace c = false)
    (hl : ∀ c, s.getLast? = some c → isPySpace c = false) :
    pyStrip (pre ++ s ++ post) = s := by
  have h1 : (pre ++ s ++ post).dropWhile isPySpace = s ++ post := by
    rw [List.append_assoc, dropWhile_append_all _ hpre]
    cases s with
    | nil => exact absurd rfl hne
    | cons c t =>
      rw [List.cons_append]
      exact dropWhile_cons_false (hh c rfl)
  have h2 : s.reverse.dropWhile isPySpace = s.reverse := by
    cases hr : s.reverse with
    | nil => rfl
    | cons c t =>
      refine dropWhile_cons_false (hl c ?_)
      rw [← List.head?_reverse, hr, List.head?_cons]
  unfold pyStrip
  rw [h1, List.reverse_append,
    dropWhile_append_all _ (fun c hc => hpost c (List.mem_reverse.mp hc)),
    h2, List.reverse_reverse]

theorem intToString_facts (n : Int) :
    intToString n ≠ [] ∧
    (∀ c, (intToString n).head? = some c → isPySpace c = false) ∧
    (∀ c, (intToString n).getLast? = some c → isPySpace c = false) ∧
    isdigit (lstripMinus (intToString n)) = true := by
  unfold intToString
  by_cases hneg : n < 0
  · rw [if_pos hneg]
    refine ⟨by simp, ?_, ?_, ?_⟩
    · intro c hc
      rw [List.head?_cons] at hc
      rw [← Option.some.inj hc]
      decide
    · intro c hc
      have h2 : ('-' :: natDigits n.natAbs).getLast? = (natDigits n.natAbs).getLast? := by
        show (['-'] ++ natDigits n.natAbs).getLast? = _
        exact getLast?_append_right (natDigits_ne_nil _)
      rw [h2] at hc
      exact isDigitChar_not_space (natDigits_all_digit _ c (getLast?_mem hc))
    · rw [lstripMinus_cons_minus, lstripMinus_natDigits]
      exact isdigit_natDigits _
  · rw [if_neg hneg]
    refine ⟨natDigits_ne_nil _, ?_, ?_, ?_⟩
    · intro c hc
      exact isDigitChar_not_space (natDigits_all_digit _ c (head?_mem hc))
    · intro c hc
      exact isDigitChar_not_space (natDigits_all_digit _ c (getLast?_mem hc))
    · rw [lstripMinus_natDigits]
      exact isdigit_natDigits _

theorem convert_str_run (s : List Char)
    (h1 : isdigit (lstripMinus (pyStrip s)) = true)
    (h2 : s.length ≤ MAX_SUPPORTED_NUMBER_LENGTH) :
    convertNumber (.str s) = read_number (pyStrip s) := by
  have hb : (!isdigit (lstripMinus (pyStrip s))) = false := by rw [h1]; rfl
  unfold convertNumber
  rw [validate_str_eq, hb, if_neg Bool.false_ne_true, if_neg (by omega)]
  rfl

theorem convert_int_run (n : Int) (h : n ≤ MAX_SUPPORTED_NUMBER) :
    convertNumber (.int n) = read_number (intToString n) := by
  unfold convertNumber
  rw [validate_int_eq, if_neg (by omega)]
  rfl

theorem convert_pad_ws (n : Int) (pre post : List Char)
    (hpre : ∀ c ∈ pre, isPySpace c = true) (hpost : ∀ c ∈ post, isPySpace c = true)
    (hlen : (pre ++ intToString n ++ post).length ≤ MAX_SUPPORTED_NUMBER_LENGTH)
    (hmax : n ≤ MAX_SUPPORTED_NUMBER) :
    convertNumber (.str (pre ++ intToString n ++ post)) = convertNumber (.int n) := by
  obtain ⟨hne, hh, hl, hdg⟩ := intToString_facts n
  have hstrip : pyStrip (pre ++ intToString n ++ post) = intToString n :=
    pyStrip_pad pre _ post hpre hpost hne hh hl
  rw [convert_str_run _ (by rw [hstrip]; exact hdg) hlen, hstrip, convert_int_run n hmax]

theorem charVal_ne_zero {c : Char} (hdig : isDigitChar c = true)
    (h0 : (c == '0') = false) : (charVal c == 0) = false := by
  cases hx : charVal c == 0 with
  | false => rfl
  | true =>
    exfalso
    have hv : charVal c = 0 := eq_of_beq hx
    have hb : 48 ≤ c.toNat := by
      simp only [isDigitChar, Bool.and_eq_true, decide_eq_true_eq] at hdig
      exact hdig.1
    have htn : c.toNat = 48 := by
      simp only [charVal] at hv
      omega
    have hc : c = '0' := by
      have h1 := Char.ofNat_toNat c
      rw [htn] at h1
      rw [← h1]
    rw [hc] at h0
    simp at h0

theorem all_zeros_false_of_mem {l : List Char} {c : Char} (hc : c ∈ l)
    (hdig : isDigitChar c = true) (h0 : (c == '0') = false) :
    all_digits_are_zeros l = false := by
  unfold all_digits_are_zeros
  cases hlen : l.length == 3 with
  | false => rw [Bool.false_and]
  | true =>
    rw [Bool.true_and]
    cases hx : l.all (fun c => charVal c == 0) with
    | false => rfl
    | true =>
      rw [List.all_eq_true] at hx
      have h2 : (charVal c == 0) = true := hx c hc
      rw [charVal_ne_zero hdig h0] at h2
      exact Bool.noConfusion h2

theorem suffix_pass_congr_head (ws : List String) (g g' : List Char)
    (gs : List (List Char)) (adds : List String)
    (hz : all_digits_are_zeros g = all_digits_are_zeros g')
    (hv : digitsVal g = digitsVal g') :
    suffix_pass ws (g :: gs) adds = suffix_pass ws (g' :: gs) adds := by
  cases ws with
  | nil => rfl
  | cons w ws => rw [suffix_pass_cons, suffix_pass_cons, hz, hv]

theorem final_format_congr_head (ws : List String) (g g' : List Char)
    (gs : List (List Char)) (neg : Bool)
    (hz : all_digits_are_zeros g = all_digits_are_zeros g')
    (hv : digitsVal g = digitsVal g') :
    final_format ws (g :: gs) neg = final_format ws (g' :: gs) neg := by
  unfold final_format
  rw [suffix_pass_congr_head ws g g' gs [] hz hv]

theorem groupPhrase_pad_zeros {z g : List Char} (hz0 : ∀ c ∈ z, (c == '0') = true)
    {c₀ : Char} (hh : g.head? = some c₀) (h0 : (c₀ == '0') = false)
    (hdig : isDigitChar c₀ = true) :
    groupPhrase (z ++ g) = groupPhrase g := by
  have hmem : c₀ ∈ g := head?_mem hh
  have hz1 : all_digits_are_zeros (z ++ g) = false :=
    all_zeros_false_of_mem (List.mem_append_right z hmem) hdig h0
  have hz2 : all_digits_are_zeros g = false :=
    all_zeros_false_of_mem hmem hdig h0
  have hls : lstripZeros (z ++ g) = lstripZeros g := dropWhile_append_all g hz0
  unfold groupPhrase format_digits
  rw [hz1, hz2, if_neg Bool.false_ne_true, if_neg Bool.false_ne_true]
  unfold add_hundreds
  rw [hls]

theorem chunksRight3_pad : ∀ (L : Nat) (z d : List Char), d.length ≤ L → d ≠ [] →
    z.length + d.length ≤ 3 * ((d.length + 2) / 3) →
    ∃ g₁ rest, chunksRight3 d = g₁ :: rest ∧
      chunksRight3 (z ++ d) = (z ++ g₁) :: rest := by
  intro L
  induction L with
  | zero =>
    intro z d hL hne _
    cases d with
    | nil => exact absurd rfl hne
    | cons c t => rw [List.length_cons] at hL; omega
  | succ L ih =>
    intro z d hL hne hcap
    have h1 : 1 ≤ d.length := by
      cases d with
      | nil => exact absurd rfl hne
      | cons c t => rw [List.length_cons]; omega
    by_cases h3 : d.length ≤ 3
    · have hc1 : (d.length + 2) / 3 = 1 := by omega
      rw [hc1] at hcap
      have hpne : z ++ d ≠ [] := by
        intro hcon
        exact hne (List.append_eq_nil.mp hcon).2
      refine ⟨d, [], chunksRight3_small hne h3, ?_⟩
      rw [chunksRight3_small hpne (by rw [List.length_append]; omega)]
    · push_neg at h3
      have htake_len : (d.take (d.length - 3)).length = d.length - 3 := by
        rw [List.length_take]
        omega
      have htne : d.take (d.length - 3) ≠ [] := by
        intro hcon
        have h2 := congrArg List.length hcon
        rw [htake_len] at h2
        simp at h2
        omega
      have hcap' : z.length + (d.take (d.length - 3)).length ≤
          3 * (((d.take (d.length - 3)).length + 2) / 3) := by
        rw [htake_len]
        omega
      obtain ⟨g₁, rest', hd1, hd2⟩ := ih z _ (by rw [htake_len]; omega) htne hcap'
      refine ⟨g₁, rest' ++ [d.drop (d.length - 3)], ?_, ?_⟩
      · rw [chunksRight3_step h3, hd1]
        rfl
      · have hzlen : (z ++ d).length = z.length + d.length := List.length_append z d
        have hsub : z.length + d.length - 3 = z.length + (d.length - 3) := by omega
        have htake2 : (z ++ d).take ((z ++ d).length - 3) = z ++ d.take (d.length - 3) := by
          rw [hzlen, hsub]
          exact List.take_append (d.length - 3)
        have hdrop2 : (z ++ d).drop ((z ++ d).length - 3) = d.drop (d.length - 3) := by
          rw [hzlen, hsub]
          exact List.drop_append (d.length - 3)
        rw [chunksRight3_step (by rw [hzlen]; omega), htake2, hdrop2, hd2]
        rfl

theorem read_number_digits_eval (d : List Char) (hdne : d ≠ [])
    (hddig : ∀ c ∈ d, isDigitChar c = true) (hdv0 : digitsVal d ≠ 0) :
    read_number d = (do
      let words ← create_text_from_number (chunksRight3 d) []
      final_format words (chunksRight3 d) false) := by
  obtain ⟨hflat, hcne, hmem3, htail3, hcount, hhead⟩ :=
    chunksRight3_props d.length d le_rfl hdne
  have hmemd : ∀ g ∈ chunksRight3 d, ∀ c ∈ g, c ∈ d := by
    intro g hg c hc
    rw [← hflat]
    exact List.mem_flatten.mpr ⟨g, hg, hc⟩
  have hsplitv : pyStripSpaces (format_number_string d) = intercalateSp (chunksRight3 d) :=
    strip_format d hdne hddig
  have hIchars : ∀ c ∈ intercalateSp (chunksRight3 d), (c == '-') = false := by
    intro c hc
    rcases mem_intercalateSp hc with ⟨g, hg, hcg⟩ | hsp
    · exact isDigitChar_ne_minus (hddig c (hmemd g hg c hcg))
    · rw [hsp]; decide
  have hlsmI : lstripMinus (intercalateSp (chunksRight3 d)) = intercalateSp (chunksRight3 d) :=
    dropWhile_eq_self_of_all hIchars
  have hsc : pySplitChar ' ' (intercalateSp (chunksRight3 d)) = chunksRight3 d :=
    pySplitChar_intercalate _ hcne
      (fun g hg c hc => isDigitChar_ne_space (hddig c (hmemd g hg c hc)))
  have hsw : pySplitWs (intercalateSp (chunksRight3 d)) = chunksRight3 d :=
    pySplitWs_intercalate _ hcne (fun g hg => (hmem3 g hg).1)
      (fun g hg c hc => isDigitChar_not_space (hddig c (hmemd g hg c hc)))
  have hpy : pyInt d = some ((digitsVal d : Int)) := pyInt_digits hdne hddig
  have hne0 : ¬ ((digitsVal d : Int) = 0) := by
    intro hc
    exact hdv0 (by exact_mod_cast hc)
  have hnegf : decide ((digitsVal d : Int) < 0) = false := decide_eq_false (by simp)
  rw [read_number_split_pos d d _ hpy hne0 hnegf (lstripMinus_of_digits hddig),
    hsplitv, hlsmI, hsc, hsw]

theorem create_text_digits (d : List Char) (hdne : d ≠ [])
    (hddig : ∀ c ∈ d, isDigitChar c = true) (hz : shortZeroLead d = false) :
    create_text_from_number (chunksRight3 d) [] = .ok ((chunksRight3 d).map groupPhrase) := by
  obtain ⟨hflat, hcne, hmem3, htail3, hcount, hhead⟩ :=
    chunksRight3_props d.length d le_rfl hdne
  have hmemd : ∀ g ∈ chunksRight3 d, ∀ c ∈ g, c ∈ d := by
    intro g hg c hc
    rw [← hflat]
    exact List.mem_flatten.mpr ⟨g, hg, hc⟩
  refine create_text_ok _ [] (by simp) ?_
  intro g hg
  obtain ⟨hgne, hgle⟩ := hmem3 g hg
  refine format_digits_ok hgne (fun c hc => hddig c (hmemd g hg c hc)) hgle ?_
  obtain ⟨g₁, rest, hceq⟩ := List.exists_cons_of_ne_nil hcne
  have hg₁ : g₁ = d.take (if d.length % 3 = 0 then 3 else d.length % 3) := by
    rw [hceq, List.head?_cons] at hhead
    exact Option.some.inj hhead
  rcases List.mem_cons.mp (hceq ▸ hg) with hgh | hgt
  · by_cases hm : d.length % 3 = 0
    · left
      have h1 : 1 ≤ d.length := by
        cases hdd : d with
        | nil => exact absurd hdd hdne
        | cons a t => simp
      rw [hgh, hg₁, if_pos hm, List.length_take]
      omega
    · right
      intro hcon
      have hg₁' : g₁ = d.take (d.length % 3) := by rw [hg₁, if_neg hm]
      have hall : ∀ c ∈ d.take (d.length % 3), (c == '0') = true := by
        refine List.dropWhile_eq_nil_iff.mp ?_
        rw [← hg₁', ← hgh]
        exact hcon
      have htrue : shortZeroLead d = true := by
        unfold shortZeroLead
        rw [Bool.and_eq_true]
        constructor
        · simp [hm]
        · rw [List.all_eq_true]
          exact hall
      rw [htrue] at hz
      exact Bool.noConfusion hz
  · left
    refine htail3 g ?_
    rw [hceq, List.tail_cons]
    exact hgt

theorem read_number_pad_zeros (k m : Nat) (hm : 0 < m)
    (hcap : k + (natDigits m).length ≤ 3 * (((natDigits m).length + 2) / 3)) :
    read_number (List.replicate k '0' ++ natDigits m) = read_number (natDigits m) := by
  have hz0 : ∀ c ∈ List.replicate k '0', (c == '0') = true := by
    intro c hc
    rw [List.eq_of_mem_replicate hc]
    decide
  have hdgne : natDigits m ≠ [] := natDigits_ne_nil m
  have hdgdig : ∀ c ∈ natDigits m, isDigitChar c = true := natDigits_all_digit m
  have hpne : List.replicate k '0' ++ natDigits m ≠ [] := by
    intro hcon
    exact hdgne (List.append_eq_nil.mp hcon).2
  have hpdig : ∀ c ∈ List.replicate k '0' ++ natDigits m, isDigitChar c = true := by
    intro c hc
    rcases List.mem_append.mp hc with h | h
    · rw [eq_of_beq (hz0 c h)]
      decide
    · exact hdgdig c h
  have hdv : digitsVal (List.replicate k '0' ++ natDigits m) = digitsVal (natDigits m) :=
    digitsVal_zeros_append _ _ hz0
  have hdv0 : digitsVal (natDigits m) ≠ 0 := by
    rw [digitsVal_natDigits]
    omega
  have hpv0 : digitsVal (List.replicate k '0' ++ natDigits m) ≠ 0 := by
    rw [hdv]
    exact hdv0
  obtain ⟨c₀, t₀, hct⟩ := List.exists_cons_of_ne_nil hdgne
  have hh0 : (natDigits m).head? = some c₀ := by rw [hct]; rfl
  have hc00 : (c₀ == '0') = false := natDigits_head_ne_zero m hm c₀ hh0
  have hc0dig : isDigitChar c₀ = true := hdgdig c₀ (head?_mem hh0)
  have hcap' : (List.replicate k '0').length + (natDigits m).length ≤
      3 * (((natDigits m).length + 2) / 3) := by
    rw [List.length_replicate]
    exact hcap
  obtain ⟨g₁, rest, hc1, hc2⟩ :=
    chunksRight3_pad (natDigits m).length (List.replicate k '0') (natDigits m)
      le_rfl hdgne hcap'
  have hg1 : g₁ = (natDigits m).take
      (if (natDigits m).length % 3 = 0 then 3 else (natDigits m).length % 3) := by
    have hhead := (chunksRight3_props (natDigits m).length (natDigits m) le_rfl hdgne).2.2.2.2.2
    rw [hc1] at hhead
    exact Option.some.inj hhead
  have hg1h : g₁.head? = some c₀ := by
    rw [hg1, take_head? _ _ ?_]
    · exact hh0
    · by_cases hm3 : (natDigits m).length % 3 = 0
      · rw [if_pos hm3]
        omega
      · rw [if_neg hm3]
        omega
  have hc0g1 : c₀ ∈ g₁ := head?_mem hg1h
  have hsz_dg : shortZeroLead (natDigits m) = false := shortZeroLead_false_of_head hh0 hc00
  have hsz_p : shortZeroLead (List.replicate k '0' ++ natDigits m) = false := by
    unfold shortZeroLead
    by_cases hm3 : (List.replicate k '0' ++ natDigits m).length % 3 = 0
    · have hb : ((List.replicate k '0' ++ natDigits m).length % 3 != 0) = false := by
        rw [hm3]
        rfl
      rw [hb, Bool.false_and]
    · have hheadp := (chunksRight3_props (List.replicate k '0' ++ natDigits m).length
        (List.replicate k '0' ++ natDigits m) le_rfl hpne).2.2.2.2.2
      rw [hc2] at hheadp
      have htk : List.replicate k '0' ++ g₁ =
          (List.replicate k '0' ++ natDigits m).take
            (if (List.replicate k '0' ++ natDigits m).length % 3 = 0 then 3
             else (List.replicate k '0' ++ natDigits m).length % 3) :=
        Option.some.inj hheadp
      rw [if_neg hm3] at htk
      have hcm : c₀ ∈ (List.replicate k '0' ++ natDigits m).take
          ((List.replicate k '0' ++ natDigits m).length % 3) := by
        rw [← htk]
        exact List.mem_append_right _ hc0g1
      have hall : ((List.replicate k '0' ++ natDigits m).take
          ((List.replicate k '0' ++ natDigits m).length % 3)).all (· == '0') = false := by
        cases hx : ((List.replicate k '0' ++ natDigits m).take
            ((List.replicate k '0' ++ natDigits m).length % 3)).all (· == '0') with
        | false => rfl
        | true =>
          rw [List.all_eq_true] at hx
          have h2 : (c₀ == '0') = true := hx c₀ hcm
          rw [hc00] at h2
          exact Bool.noConfusion h2
      rw [hall, Bool.and_false]
  rw [read_number_digits_eval _ hpne hpdig hpv0,
    read_number_digits_eval _ hdgne hdgdig hdv0,
    create_text_digits _ hpne hpdig hsz_p,
    create_text_digits _ hdgne hdgdig hsz_dg]
  show final_format ((chunksRight3 (List.replicate k '0' ++ natDigits m)).map groupPhrase)
      (chunksRight3 (List.replicate k '0' ++ natDigits m)) false =
    final_format ((chunksRight3 (natDigits m)).map groupPhrase)
      (chunksRight3 (natDigits m)) false
  have hmapeq : (chunksRight3 (List.replicate k '0' ++ natDigits m)).map groupPhrase =
      (chunksRight3 (natDigits m)).map groupPhrase := by
    rw [hc2, hc1, List.map_cons, List.map_cons,
      groupPhrase_pad_zeros hz0 hg1h hc00 hc0dig]
  have hzeq : all_digits_are_zeros (List.replicate k '0' ++ g₁) = all_digits_are_zeros g₁ := by
    rw [all_zeros_false_of_mem (List.mem_append_right _ hc0g1) hc0dig hc00,
      all_zeros_false_of_mem hc0g1 hc0dig hc00]
  have hveq : digitsVal (List.replicate k '0' ++ g₁) = digitsVal g₁ :=
    digitsVal_zeros_append _ _ hz0
  rw [hmapeq, hc2, hc1]
  exact final_format_congr_head _ _ _ rest false hzeq hveq

theorem convert_pad_zeros (k m : Nat) (hm : 0 < m)
    (hcap : k + (natDigits m).length ≤ 3 * (((natDigits m).length + 2) / 3))
    (hlen : k + (natDigits m).length ≤ 27) :
    convertNumber (.str (List.replicate k '0' ++ natDigits m)) =
      convertNumber (.int (m : Int)) := by
  have hdgne : natDigits m ≠ [] := natDigits_ne_nil m
  have hpne : List.replicate k '0' ++ natDigits m ≠ [] := by
    intro hcon
    exact hdgne (List.append_eq_nil.mp hcon).2
  have hpdig : ∀ c ∈ List.replicate k '0' ++ natDigits m, isDigitChar c = true := by
    intro c hc
    rcases List.mem_append.mp hc with h | h
    · rw [List.eq_of_mem_replicate h]
      decide
    · exact natDigits_all_digit m c h
  have hstrip : pyStrip (List.replicate k '0' ++ natDigits m) =
      List.replicate k '0' ++ natDigits m :=
    pyStrip_eq_self (fun c hc => isDigitChar_not_space (hpdig c hc))
  have hlsm : lstripMinus (List.replicate k '0' ++ natDigits m) =
      List.replicate k '0' ++ natDigits m :=
    lstripMinus_of_digits hpdig
  have hdg : isdigit (lstripMinus (pyStrip (List.replicate k '0' ++ natDigits m))) = true := by
    rw [hstrip, hlsm]
    exact isdigit_of_all hpne hpdig
  have hlen' : (List.replicate k '0' ++ natDigits m).length ≤ MAX_SUPPORTED_NUMBER_LENGTH := by
    rw [List.length_append, List.length_replicate]
    exact hlen
  have hmval : m < 10 ^ 27 := by
    have h1 := digitsVal_lt (natDigits m) (natDigits_all_digit m)
    rw [digitsVal_natDigits] at h1
    have h2 : (10:Nat) ^ (natDigits m).length ≤ 10 ^ 27 :=
      Nat.pow_le_pow_right (by omega) (by omega)
    omega
  have hmmax : (m : Int) ≤ MAX_SUPPORTED_NUMBER := by
    unfold MAX_SUPPORTED_NUMBER
    have h27 : (10:Nat) ^ 27 = 1000000000000000000000000000 := by norm_num
    omega
  have hits : intToString (m : Int) = natDigits m := by
    unfold intToString
    rw [if_neg (by omega), Int.toNat_natCast]
  rw [convert_str_run _ hdg hlen', hstrip, read_number_pad_zeros k m hm hcap,
    convert_int_run (m : Int) hmmax, hits]

/-- **C3 (amended).**  Padding invariance holds with a restriction on zero
padding.  (1) Surrounding whitespace never changes the result: for every
integer `n ≤ MAX` and whitespace paddings keeping the raw string within the
27-character limit, `convert(pad_l + str(n) + pad_r) = convert(n)`.
(2) Leading zeros do not change the result as long as the padding does not
create a new three-digit group (the padded length stays within the capacity
`3 * ceil(len/3)` of the unpadded grouping) and the total stays within 27
characters.  (3) The spec's two worked examples hold:
`convert("000123") = convert(123)` and `convert("  456  ") = convert(456)`.
Zero padding that adds a whole new group can change the wording
(`c3_counterexample`), so the unrestricted claim is false. -/
theorem c3_amended :
    (∀ (n : Int) (pre post : List Char),
      (∀ c ∈ pre, isPySpace c = true) → (∀ c ∈ post, isPySpace c = true) →
      (pre ++ intToString n ++ post).length ≤ MAX_SUPPORTED_NUMBER_LENGTH →
      n ≤ MAX_SUPPORTED_NUMBER →
      convertNumber (.str (pre ++ intToString n ++ post)) = convertNumber (.int n)) ∧
    (∀ (k m : Nat), 0 < m →
      k + (natDigits m).length ≤ 3 * (((natDigits m).length + 2) / 3) →
      k + (natDigits m).length ≤ 27 →
      convertNumber (.str (List.replicate k '0' ++ natDigits m)) =
        convertNumber (.int (m : Int))) ∧
    convertNumber (.str "000123".data) = convertNumber (.int 123) ∧
    convertNumber (.str "  456  ".data) = convertNumber (.int 456) :=
  ⟨convert_pad_ws, convert_pad_zeros, rfl, rfl⟩

/-- Witness for `c3_amended`: one leading zero on 23456 (which fills the
leading group to "023") and the two concrete examples. -/
theorem c3_witness :
    convertNumber (.str (List.replicate 1 '0' ++ natDigits 23456)) =
      convertNumber (.int ((23456 : Nat) : Int)) :=
  c3_amended.2.1 1 23456 (by decide) (by decide) (by decide)
